import Mathlib

/-! Rendering of TOML decode errors (`error.go`).

A shallow embedding of `DecodeError.Error` and `DecodeError.ExtError`.

* A Go `string` is a sequence of bytes: `GoString := List UInt8`, and `len` is
  `List.length`.  String constants of the source are written `lit "..."`.
* A Go `int` is modelled as an `Int` on which every arithmetic operation of the
  source is followed by `wrapInt` (two's complement, 64 bits).  The theorems
  assume what holds of every Go string, that its length is below the largest
  `int` (`len de.Input < maxInt`).
* The parts of the packages `fmt`, `strconv`, `strings` and `unicode/utf8` that
  the two methods call are modelled from their documented behaviour.  A result
  of `none` stands for a run-time panic (index out of range, negative repeat
  count) or for a format outside the modelled fragment of `fmt`.
* Of the limits on memory only one is modelled: `strings.Repeat` panics when
  its result would have as many bytes as the largest `int` or more, which the
  runtime of every 64-bit platform refuses to allocate.  What memory the machine
  has is not modelled.
* `strconv.IsPrint` consults large Unicode tables for runes above U+00FF; these
  tables are a parameter, `tab`, of everything that may quote a string.
-/

set_option maxRecDepth 100000

namespace Toml

/-! ## Strings and integers -/

/-- A Go string: an immutable sequence of bytes. -/
abbrev GoString := List UInt8

/-- The bytes (UTF-8) of a string constant of the source. -/
def lit (s : String) : GoString := s.data.flatMap String.utf8EncodeChar

/-- Largest value of a 64-bit Go `int`. -/
def maxInt : Int := 9223372036854775807

/-- Smallest value of a 64-bit Go `int`. -/
def minInt : Int := -9223372036854775808

/-- Two's-complement wrap-around of a mathematical integer into a 64-bit `int`. -/
def wrapInt (x : Int) : Int :=
  (x + 9223372036854775808) % 18446744073709551616 - 9223372036854775808

/-- Go's `len(s)` for a string, as an `int`. -/
def len (s : GoString) : Int := (s.length : Int)

/-- Indexing `xs[i]` of a Go slice with an `int`: out of range panics. -/
def index {α : Type} (xs : List α) (i : Int) : Option α :=
  if i < 0 then none else xs[i.toNat]?

/-! ## `unicode/utf8` -/

/-- The rune `utf8.RuneError`, U+FFFD. -/
def RuneError : Nat := 0xFFFD

/-- Whether `b` is a UTF-8 continuation byte within `lo..hi`. -/
def inRange (lo hi : Nat) (b : UInt8) : Bool := lo ≤ b.toNat && b.toNat ≤ hi

/-- `utf8.DecodeRuneInString`: the first rune of `s` and its width in bytes;
`(RuneError, 1)` for an invalid or truncated encoding, `(RuneError, 0)` for
the empty string. -/
def DecodeRune (s : GoString) : Nat × Nat :=
  match s with
  | [] => (RuneError, 0)
  | s0 :: t =>
    let b0 := s0.toNat
    if b0 < 0x80 then (b0, 1)
    else if b0 < 0xC2 || 0xF4 < b0 then (RuneError, 1)
    else
      let sz := if b0 < 0xE0 then 2 else if b0 < 0xF0 then 3 else 4
      let lo := if b0 = 0xE0 then 0xA0 else if b0 = 0xF0 then 0x90 else 0x80
      let hi := if b0 = 0xED then 0x9F else if b0 = 0xF4 then 0x8F else 0xBF
      if s.length < sz then (RuneError, 1)
      else
        match t with
        | [] => (RuneError, 1)
        | s1 :: t1 =>
          if !inRange lo hi s1 then (RuneError, 1)
          else if sz ≤ 2 then ((b0 % 0x20) * 0x40 + s1.toNat % 0x40, 2)
          else
            match t1 with
            | [] => (RuneError, 1)
            | s2 :: t2 =>
              if !inRange 0x80 0xBF s2 then (RuneError, 1)
              else if sz ≤ 3 then
                ((b0 % 0x10) * 0x1000 + (s1.toNat % 0x40) * 0x40 + s2.toNat % 0x40, 3)
              else
                match t2 with
                | [] => (RuneError, 1)
                | s3 :: _ =>
                  if !inRange 0x80 0xBF s3 then (RuneError, 1)
                  else
                    ((b0 % 0x08) * 0x40000 + (s1.toNat % 0x40) * 0x1000
                      + (s2.toNat % 0x40) * 0x40 + s3.toNat % 0x40, 4)

/-- `utf8.ValidRune`: a Unicode scalar value (not a surrogate, at most U+10FFFF). -/
def ValidRune (r : Nat) : Bool := r < 0xD800 || (0xE000 ≤ r && r ≤ 0x10FFFF)

/-- `utf8.AppendRune`: the UTF-8 encoding of `r` (of `RuneError` when `r` is not
a valid rune). -/
def EncodeRune (r : Nat) : GoString :=
  if r ≤ 0x7F then [UInt8.ofNat r]
  else if r ≤ 0x7FF then [UInt8.ofNat (0xC0 + r / 0x40), UInt8.ofNat (0x80 + r % 0x40)]
  else if !ValidRune r then [0xEF, 0xBF, 0xBD]
  else if r ≤ 0xFFFF then
    [UInt8.ofNat (0xE0 + r / 0x1000), UInt8.ofNat (0x80 + r / 0x40 % 0x40),
     UInt8.ofNat (0x80 + r % 0x40)]
  else
    [UInt8.ofNat (0xF0 + r / 0x40000), UInt8.ofNat (0x80 + r / 0x1000 % 0x40),
     UInt8.ofNat (0x80 + r / 0x40 % 0x40), UInt8.ofNat (0x80 + r % 0x40)]

/-- Loop of `utf8.RuneCountInString`; `skip` counts the bytes of the current
rune that are still to be passed over. -/
def runeCountFrom : GoString → Nat → Nat
  | [], _ => 0
  | _ :: rest, skip + 1 => runeCountFrom rest skip
  | b :: rest, 0 => 1 + runeCountFrom rest ((DecodeRune (b :: rest)).2 - 1)

/-- `utf8.RuneCountInString`: the number of runes of `s`, an invalid byte
counting as one rune. -/
def RuneCount (s : GoString) : Nat := runeCountFrom s 0

/-! ## `strconv` -/

/-- The digit characters `"0123456789abcdef"` of `strconv`. -/
def lowerhex (d : Nat) : UInt8 :=
  if d < 10 then UInt8.ofNat (48 + d) else UInt8.ofNat (87 + d)

/-- `strconv.IsPrint`: computed for runes up to U+00FF, looked up in `tab` above. -/
def IsPrint (tab : Nat → Bool) (r : Nat) : Bool :=
  if r ≤ 0xFF then
    if 0x20 ≤ r && r ≤ 0x7E then true
    else if 0xA1 ≤ r then r != 0xAD
    else false
  else tab r

/-- `strconv.appendEscapedRune` for the double quote, neither ASCII-only nor
graphic-only: what `strconv.Quote` writes for the rune `r`. -/
def appendEscapedRune (tab : Nat → Bool) (r : Nat) : GoString :=
  if r = 0x22 || r = 0x5C then [0x5C, UInt8.ofNat r]
  else if IsPrint tab r then EncodeRune r
  else if r = 7 then lit "\\a"
  else if r = 8 then lit "\\b"
  else if r = 12 then lit "\\f"
  else if r = 10 then lit "\\n"
  else if r = 13 then lit "\\r"
  else if r = 9 then lit "\\t"
  else if r = 11 then lit "\\v"
  else if r < 0x20 || r = 0x7F then
    lit "\\x" ++ [lowerhex (r / 16), lowerhex (r % 16)]
  else if !ValidRune r then lit "\\ufffd"
  else if r < 0x10000 then
    lit "\\u" ++ [lowerhex (r / 0x1000 % 16), lowerhex (r / 0x100 % 16),
                  lowerhex (r / 0x10 % 16), lowerhex (r % 16)]
  else
    lit "\\U" ++ [lowerhex (r / 0x10000000 % 16), lowerhex (r / 0x1000000 % 16),
                  lowerhex (r / 0x100000 % 16), lowerhex (r / 0x10000 % 16),
                  lowerhex (r / 0x1000 % 16), lowerhex (r / 0x100 % 16),
                  lowerhex (r / 0x10 % 16), lowerhex (r % 16)]

/-- Loop of `strconv.appendQuotedWith`: the escaped form of the runes of `s`;
`skip` counts the bytes of the current rune that are still to be passed over. -/
def quoteFrom (tab : Nat → Bool) : GoString → Nat → GoString
  | [], _ => []
  | _ :: rest, skip + 1 => quoteFrom tab rest skip
  | b :: rest, 0 =>
    let rw := if 0x80 ≤ b.toNat then DecodeRune (b :: rest) else (b.toNat, 1)
    (if rw.2 = 1 ∧ rw.1 = RuneError then
        lit "\\x" ++ [lowerhex (b.toNat / 16), lowerhex (b.toNat % 16)]
      else appendEscapedRune tab rw.1)
    ++ quoteFrom tab rest (rw.2 - 1)

/-- `strconv.Quote`: a double-quoted Go string literal for `s`. -/
def Quote (tab : Nat → Bool) (s : GoString) : GoString :=
  lit "\"" ++ quoteFrom tab s 0 ++ lit "\""

/-- Digits of `u` in base 10, most significant first (`fuel` bounds the loop). -/
def formatUintFuel : Nat → Nat → GoString
  | 0, _ => []
  | fuel + 1, u =>
    if u < 10 then [UInt8.ofNat (48 + u)]
    else formatUintFuel fuel (u / 10) ++ [UInt8.ofNat (48 + u % 10)]

/-- Decimal digits of the natural number `u`. -/
def formatUint (u : Nat) : GoString := formatUintFuel (u + 1) u

/-- `strconv.Itoa`, which is also what the verb `%d` prints without flags: the
decimal form of `n`, with a leading `-` when negative. -/
def decimal (n : Int) : GoString :=
  if n < 0 then lit "-" ++ formatUint n.natAbs else formatUint n.natAbs

/-! ## `fmt`: the verbs `%d`, `%s` and `%q`, the space flag and a width -/

/-- An operand of a formatted print: the program passes `int`s and `string`s. -/
inductive Arg where
  | int (n : Int)
  | str (s : GoString)

/-- `fmt.pad`: with a width, spaces are written on the left until the text is
`wid` runes wide; text that is wider already is written unchanged. -/
def pad (wid : Option Nat) (b : GoString) : GoString :=
  match wid with
  | none => b
  | some w => List.replicate (w - RuneCount b) ' '.toUInt8 ++ b

/-- `fmt.fmtInteger` for base 10: the digits, preceded by `-` for a negative
number and otherwise by a space when the space flag is set, then padded. -/
def fmtInteger (space : Bool) (wid : Option Nat) (n : Int) : GoString :=
  pad wid (if n < 0 then '-'.toUInt8 :: formatUint n.natAbs
           else if space then ' '.toUInt8 :: formatUint n.natAbs
           else formatUint n.natAbs)

/-- `fmt.fmtS`: the string itself, padded. -/
def fmtS (wid : Option Nat) (s : GoString) : GoString := pad wid s

/-- `fmt.fmtQ` without the flags `#` and `+`: the quoted string, padded. -/
def fmtQ (tab : Nat → Bool) (wid : Option Nat) (s : GoString) : GoString :=
  pad wid (Quote tab s)

/-- `fmt.printArg`: one operand under one verb; `none` for a combination of
verb and operand outside the modelled fragment. -/
def printArg (tab : Nat → Bool) (verb : UInt8) (space : Bool) (wid : Option Nat)
    (a : Arg) : Option GoString :=
  match a with
  | Arg.int n => if verb = 'd'.toUInt8 then some (fmtInteger space wid n) else none
  | Arg.str s =>
    if verb = 's'.toUInt8 then some (fmtS wid s)
    else if verb = 'q'.toUInt8 then some (fmtQ tab wid s)
    else none

/-- Where `doPrintf` stands in the format: in plain text, after a `%` among the
flags, or inside the digits of a width. -/
inductive Mode where
  | text
  | flags (space : Bool)
  | width (space : Bool) (wid : Nat)

/-- `fmt.doPrintf`: plain bytes are copied; after `%` come the flags (only the
space flag is modelled), an optional decimal width, and the verb, which formats
the next operand.  Missing or extra operands, other flags, precisions and other
verbs give `none`. -/
def doPrintf (tab : Nat → Bool) : GoString → Mode → List Arg → Option GoString
  | [], Mode.text, [] => some []
  | [], _, _ => none
  | c :: fs, Mode.text, args =>
    if c = '%'.toUInt8 then doPrintf tab fs (Mode.flags false) args
    else (doPrintf tab fs Mode.text args).map (fun t => c :: t)
  | c :: fs, Mode.flags space, args =>
    if c = ' '.toUInt8 then doPrintf tab fs (Mode.flags true) args
    else if 49 ≤ c.toNat ∧ c.toNat ≤ 57 then
      doPrintf tab fs (Mode.width space (c.toNat - 48)) args
    else if c = '%'.toUInt8 then (doPrintf tab fs Mode.text args).map (fun t => c :: t)
    else
      match args with
      | [] => none
      | a :: rest =>
        (printArg tab c space none a).bind fun s =>
          (doPrintf tab fs Mode.text rest).map (fun t => s ++ t)
  | c :: fs, Mode.width space w, args =>
    if 48 ≤ c.toNat ∧ c.toNat ≤ 57 then
      if 1000000 < w then none
      else doPrintf tab fs (Mode.width space (w * 10 + (c.toNat - 48))) args
    else if c = '%'.toUInt8 then (doPrintf tab fs Mode.text args).map (fun t => c :: t)
    else
      match args with
      | [] => none
      | a :: rest =>
        (printArg tab c space (some w) a).bind fun s =>
          (doPrintf tab fs Mode.text rest).map (fun t => s ++ t)

/-- `fmt.Sprintf(format, args...)`. -/
def Sprintf (tab : Nat → Bool) (format : GoString) (args : List Arg) : Option GoString :=
  doPrintf tab format Mode.text args

/-- `fmt.Fprintf(b, format, args...)` on a `strings.Builder` holding `b`: the
builder's content afterwards. -/
def Fprintf (tab : Nat → Bool) (b : GoString) (format : GoString) (args : List Arg) :
    Option GoString :=
  (Sprintf tab format args).map (fun s => b ++ s)

/-! ## `strings` -/

/-- `(*strings.Builder).WriteString(s)` on a builder holding `b`: the builder's
content afterwards. -/
def WriteString (b : GoString) (s : GoString) : GoString := b ++ s

/-- `strings.Split(s, sep)` for a separator `sep` of one byte: the pieces of `s`
between the occurrences of `sep`, the separators removed.  There is always at
least one piece, and a trailing separator yields a trailing empty piece. -/
def Split (s : GoString) (sep : UInt8) : List GoString :=
  match s with
  | [] => [[]]
  | b :: rest =>
    if b = sep then [] :: Split rest sep
    else
      match Split rest sep with
      | [] => [[b]]
      | l :: ls => (b :: l) :: ls

/-- `strings.Repeat(s, count)`: panics when `count` is negative (`negative
Repeat count`), when `len(s) * count` overflows an `int` (`Repeat output length
overflow`), and when the runtime refuses to allocate the result (`makeslice: len
out of range`).  The allocation limit of the runtime depends on the platform and
is below the largest `int` on every 64-bit one; the model refuses what all of
them refuse, a result of `maxInt` bytes or more. -/
def Repeat (s : GoString) (count : Int) : Option GoString :=
  if count < 0 then none
  else if maxInt < len s * count then none
  else if maxInt ≤ len s * count then none
  else some (List.replicate count.toNat s).flatten

/-! ## `error.go` -/

/-- The struct `DecodeError`. -/
structure DecodeError where
  Message : GoString
  Line : Int
  Pos : Int
  LastKey : GoString
  Input : GoString

/-- The method `DecodeError.Error`. -/
def Error (tab : Nat → Bool) (de : DecodeError) : Option GoString :=
  if de.LastKey = [] then
    Sprintf tab (lit "toml: line %d: %s") [Arg.int de.Line, Arg.str de.Message]
  else
    Sprintf tab (lit "toml: line %d (last key parsed '%s'): %s")
      [Arg.int de.Line, Arg.str de.LastKey, Arg.str de.Message]

/-- The loop `for i := range lines` of `ExtError`, from index `i` on with the
running byte cursor `pos`; the result is `(line, col)`.  When the loop runs to
its end without a `break`, `line` and `col` keep their zero values. -/
def walk (Pos : Int) : List GoString → Int → Int → Int × Int
  | [], _, _ => (0, 0)
  | l :: rest, i, pos =>
    let ll := wrapInt (len l + 1)
    if wrapInt (pos + ll) ≥ Pos then
      let col := wrapInt (wrapInt (Pos - pos) - 1)
      (i, if col < 0 then 0 else col)
    else walk Pos rest (i + 1) (wrapInt (pos + ll))

/-- The pair `(line, col)` that `ExtError` computes for a record with input. -/
def resolve (de : DecodeError) : Int × Int :=
  walk de.Pos (Split de.Input '\n'.toUInt8) 0 0

/-- The method `DecodeError.ExtError`.  The builder `b` is passed from one print
to the next. -/
def ExtError (tab : Nat → Bool) (de : DecodeError) : Option GoString :=
  if de.Input = [] then Error tab de
  else do
    let lines := Split de.Input '\n'.toUInt8
    let line := (resolve de).1
    let col := (resolve de).2
    let b : GoString := []
    let b ← Fprintf tab b (lit "toml: error: %s\n") [Arg.str de.Message]
    let b ← Fprintf tab b (lit "             on line %d") [Arg.int (wrapInt (line + 1))]
    let b ←
      if de.LastKey ≠ [] then
        Fprintf tab b (lit "; last key parsed was %q") [Arg.str de.LastKey]
      else pure b
    let b := WriteString b (lit "\n\n")
    let b ←
      if line > 1 then do
        let l ← index lines (wrapInt (line - 2))
        Fprintf tab b (lit "% 6d | %s\n") [Arg.int (wrapInt (line - 1)), Arg.str l]
      else pure b
    let b ←
      if line > 0 then do
        let l ← index lines (wrapInt (line - 1))
        Fprintf tab b (lit "% 6d | %s\n") [Arg.int line, Arg.str l]
      else pure b
    let l ← index lines line
    let b ← Fprintf tab b (lit "% 6d | %s\n") [Arg.int (wrapInt (line + 1)), Arg.str l]
    let sp ← Repeat (lit " ") col
    let b ← Fprintf tab b (lit "% 9s%s^\n") [Arg.str (lit ""), Arg.str sp]
    pure b

/-! ## Vocabulary of the statements -/

/-- The byte index in the input at which line `i` of the split begins: the sum
of `len(lines[j]) + 1` over the lines `j < i`. -/
def lineStart (lines : List GoString) (i : Nat) : Int :=
  ((lines.take i).map (fun l => len l + 1)).sum

/-- The column that lines 57 to 60 of `error.go` compute when the walk stops with
the cursor at `pos`: `Pos - pos - 1` in `int` arithmetic, replaced by 0 when
negative. -/
def colAt (Pos pos : Int) : Int :=
  if wrapInt (wrapInt (Pos - pos) - 1) < 0 then 0 else wrapInt (wrapInt (Pos - pos) - 1)

/-- A table without any printable rune above U+00FF, for the examples: they
quote ASCII keys only, for which the table is never consulted. -/
def emptyTab : Nat → Bool := fun _ => false

/-- The input of the specification's example: three lines, each ended by a
newline. -/
def threeLines : GoString := lit "line1\nline2\nline3\n"

/-- A record over `threeLines` with the given offset and last key. -/
def sample (pos : Int) (key : GoString) : DecodeError :=
  ⟨lit "bad value", 5, pos, key, threeLines⟩

/-- An input of 99999 newlines, that is 100000 empty lines. -/
def manyLines : GoString := List.replicate 99999 '\n'.toUInt8

/-- The state of the loop `for i := range lines` of `ExtError` at its `break`:
the index `i` of the selected line and the cursor `pos` there; `none` when the
loop runs to its end without a `break`. -/
def walkStop (Pos : Int) : List GoString → Int → Int → Option (Int × Int)
  | [], _, _ => none
  | l :: rest, i, pos =>
    let ll := wrapInt (len l + 1)
    if wrapInt (pos + ll) ≥ Pos then some (i, pos)
    else walkStop Pos rest (i + 1) (wrapInt (pos + ll))

/-- The value `de.Pos - pos - 1` that line 57 of `error.go` assigns to `col`,
before the test `col < 0`. -/
def rawCol (Pos pos : Int) : Int := wrapInt (wrapInt (Pos - pos) - 1)

/-! ## Integers -/

theorem wrapInt_of_range (x : Int) (h1 : minInt ≤ x) (h2 : x ≤ maxInt) : wrapInt x = x := by
  unfold wrapInt
  unfold minInt at h1
  unfold maxInt at h2
  omega

theorem wrapInt_le (x : Int) : wrapInt x ≤ maxInt := by
  unfold wrapInt maxInt
  omega

theorem wrapInt_ge (x : Int) : minInt ≤ wrapInt x := by
  unfold wrapInt minInt
  omega

theorem len_nonneg (s : GoString) : 0 ≤ len s := by
  unfold len
  omega

/-! ## The newline split -/

theorem Split_ne_nil (s : GoString) (sep : UInt8) : Split s sep ≠ [] := by
  induction s with
  | nil => simp [Split]
  | cons b rest ih =>
    unfold Split
    split
    · simp
    · split <;> simp

theorem lineStart_zero (lines : List GoString) : lineStart lines 0 = 0 := by
  simp [lineStart]

theorem lineStart_cons_succ (l : GoString) (ls : List GoString) (j : Nat) :
    lineStart (l :: ls) (j + 1) = len l + 1 + lineStart ls j := by
  simp [lineStart]

theorem lineStart_succ (lines : List GoString) (j : Nat) (l : GoString)
    (h : lines[j]? = some l) : lineStart lines (j + 1) = lineStart lines j + (len l + 1) := by
  induction lines generalizing j with
  | nil => simp at h
  | cons a ls ih =>
    cases j with
    | zero =>
      simp at h
      subst h
      simp [lineStart]
    | succ j =>
      simp at h
      rw [lineStart_cons_succ, lineStart_cons_succ, ih j h]
      omega

theorem lineStart_nonneg (lines : List GoString) (i : Nat) : 0 ≤ lineStart lines i := by
  induction lines generalizing i with
  | nil => simp [lineStart]
  | cons a ls ih =>
    cases i with
    | zero => simp [lineStart]
    | succ i =>
      rw [lineStart_cons_succ]
      have := ih i
      have := len_nonneg a
      omega

theorem lineStart_mono (lines : List GoString) (i j : Nat) (h : i ≤ j) :
    lineStart lines i ≤ lineStart lines j := by
  induction lines generalizing i j with
  | nil => simp [lineStart]
  | cons a ls ih =>
    cases i with
    | zero =>
      rw [lineStart_zero]
      exact lineStart_nonneg _ _
    | succ i =>
      cases j with
      | zero => omega
      | succ j =>
        rw [lineStart_cons_succ, lineStart_cons_succ]
        have := ih i j (by omega)
        omega

theorem lineStart_length_Split (s : GoString) (sep : UInt8) :
    lineStart (Split s sep) (Split s sep).length = len s + 1 := by
  induction s with
  | nil => simp [Split, lineStart, len]
  | cons b rest ih =>
    unfold Split
    split
    · rw [List.length_cons, lineStart_cons_succ, ih]
      simp [len]
      omega
    · split
      · rename_i h
        exact absurd h (Split_ne_nil rest sep)
      · rename_i l ls h
        rw [h] at ih
        rw [List.length_cons, lineStart_cons_succ] at ih ⊢
        simp [len] at ih ⊢
        omega

/-! ## The offset walk -/

theorem walk_char (Pos : Int) (lines : List GoString) (i pos : Int) (h0 : 0 ≤ pos)
    (hb : pos + lineStart lines lines.length ≤ maxInt) :
    (∃ k : Nat, k < lines.length ∧ Pos ≤ pos + lineStart lines (k + 1) ∧
        (∀ j : Nat, j < k → pos + lineStart lines (j + 1) < Pos) ∧
        walk Pos lines i pos = (i + k, colAt Pos (pos + lineStart lines k)))
    ∨ ((∀ j : Nat, j < lines.length → pos + lineStart lines (j + 1) < Pos) ∧
        walk Pos lines i pos = (0, 0)) := by
  induction lines generalizing i pos with
  | nil =>
    right
    simp [walk]
  | cons l rest ih =>
    have hl := len_nonneg l
    have hr := lineStart_nonneg rest rest.length
    rw [List.length_cons, lineStart_cons_succ] at hb
    have hll : wrapInt (len l + 1) = len l + 1 :=
      wrapInt_of_range _ (by unfold minInt; omega) (by omega)
    have hpl : wrapInt (pos + (len l + 1)) = pos + (len l + 1) :=
      wrapInt_of_range _ (by unfold minInt; omega) (by omega)
    by_cases hsel : Pos ≤ pos + (len l + 1)
    · left
      refine ⟨0, by simp, ?_, by simp, ?_⟩
      · rw [lineStart_cons_succ, lineStart_zero]
        omega
      · simp [walk, hll, hpl, hsel, colAt, lineStart_zero]
    · have hstep : walk Pos (l :: rest) i pos = walk Pos rest (i + 1) (pos + (len l + 1)) := by
        simp [walk, hll, hpl, hsel]
      rcases ih (i + 1) (pos + (len l + 1)) (by omega) (by omega) with
        ⟨k, hk, hge, hlt, hw⟩ | ⟨hlt, hw⟩
      · left
        refine ⟨k + 1, by simp [hk], ?_, ?_, ?_⟩
        · rw [lineStart_cons_succ]
          omega
        · intro j hj
          cases j with
          | zero =>
            rw [lineStart_cons_succ, lineStart_zero]
            omega
          | succ j =>
            rw [lineStart_cons_succ]
            have := hlt j (by omega)
            omega
        · rw [hstep, hw, lineStart_cons_succ]
          have e1 : i + 1 + (k : Int) = i + ((k + 1 : Nat) : Int) := by push_cast; omega
          have e2 : pos + (len l + 1) + lineStart rest k = pos + (len l + 1 + lineStart rest k) := by
            omega
          rw [e1, e2]
      · right
        refine ⟨?_, by rw [hstep, hw]⟩
        intro j hj
        cases j with
        | zero =>
          rw [lineStart_cons_succ, lineStart_zero]
          omega
        | succ j =>
          rw [lineStart_cons_succ]
          have := hlt j (by simpa using hj)
          omega

theorem colAt_nonneg (Pos pos : Int) : 0 ≤ colAt Pos pos := by
  unfold colAt
  split <;> omega

theorem colAt_le (Pos pos : Int) : colAt Pos pos ≤ maxInt := by
  unfold colAt
  split
  · unfold maxInt; omega
  · exact wrapInt_le _

theorem colAt_eq (Pos pos : Int) (h1 : minInt < Pos) (h2 : Pos ≤ maxInt) (h3 : 0 ≤ pos)
    (h4 : pos = 0 ∨ pos < Pos) : colAt Pos pos = max 0 (Pos - pos - 1) := by
  unfold colAt wrapInt
  unfold minInt at h1
  unfold maxInt at h2
  rcases h4 with h4 | h4
  · subst h4
    split <;> omega
  · split <;> omega

/-- What `resolve` returns, in terms of the line starts: either the walk stops at
the least line `k` whose end reaches `Pos`, or no line does and it returns
`(0, 0)`. -/
theorem resolve_char (de : DecodeError) (hlen : len de.Input < maxInt) :
    (∃ k : Nat, k < (Split de.Input '\n'.toUInt8).length ∧
        de.Pos ≤ lineStart (Split de.Input '\n'.toUInt8) (k + 1) ∧
        (∀ j : Nat, j < k → lineStart (Split de.Input '\n'.toUInt8) (j + 1) < de.Pos) ∧
        resolve de = ((k : Int), colAt de.Pos (lineStart (Split de.Input '\n'.toUInt8) k)))
    ∨ ((∀ j : Nat, j < (Split de.Input '\n'.toUInt8).length →
          lineStart (Split de.Input '\n'.toUInt8) (j + 1) < de.Pos) ∧
        resolve de = (0, 0)) := by
  have hb : (0 : Int) + lineStart (Split de.Input '\n'.toUInt8)
      (Split de.Input '\n'.toUInt8).length ≤ maxInt := by
    rw [lineStart_length_Split]
    omega
  have h := walk_char de.Pos (Split de.Input '\n'.toUInt8) 0 0 (le_refl 0) hb
  simpa [resolve] using h

/-! ## The six format strings of the program -/

theorem Sprintf_compact (tab : Nat → Bool) (n : Int) (m : GoString) :
    Sprintf tab (lit "toml: line %d: %s") [Arg.int n, Arg.str m]
      = some (lit "toml: line " ++ (decimal n ++ (lit ": " ++ (m ++ [])))) := rfl

theorem Sprintf_compact_key (tab : Nat → Bool) (n : Int) (k m : GoString) :
    Sprintf tab (lit "toml: line %d (last key parsed '%s'): %s")
        [Arg.int n, Arg.str k, Arg.str m]
      = some (lit "toml: line " ++ (decimal n ++ (lit " (last key parsed '" ++
          (k ++ (lit "'): " ++ (m ++ [])))))) := rfl

theorem Fprintf_message (tab : Nat → Bool) (b m : GoString) :
    Fprintf tab b (lit "toml: error: %s\n") [Arg.str m]
      = some (b ++ (lit "toml: error: " ++ (m ++ lit "\n"))) := rfl

theorem Fprintf_on_line (tab : Nat → Bool) (b : GoString) (n : Int) :
    Fprintf tab b (lit "             on line %d") [Arg.int n]
      = some (b ++ (lit "             on line " ++ (decimal n ++ []))) := rfl

theorem Fprintf_last_key (tab : Nat → Bool) (b k : GoString) :
    Fprintf tab b (lit "; last key parsed was %q") [Arg.str k]
      = some (b ++ (lit "; last key parsed was " ++ (Quote tab k ++ []))) := rfl

theorem Fprintf_row (tab : Nat → Bool) (b : GoString) (n : Int) (l : GoString) :
    Fprintf tab b (lit "% 6d | %s\n") [Arg.int n, Arg.str l]
      = some (b ++ (fmtInteger true (some 6) n ++ (lit " | " ++ (l ++ lit "\n")))) := rfl

theorem Fprintf_caret (tab : Nat → Bool) (b sp : GoString) :
    Fprintf tab b (lit "% 9s%s^\n") [Arg.str (lit ""), Arg.str sp]
      = some (b ++ ((List.replicate 9 ' '.toUInt8 ++ []) ++ (sp ++ lit "^\n"))) := rfl

/-! ## The shape of the extended rendering -/

theorem le_lineStart (lines : List GoString) (i : Nat) (h : i ≤ lines.length) :
    (i : Int) ≤ lineStart lines i := by
  induction lines generalizing i with
  | nil =>
    simp at h
    subst h
    simp [lineStart]
  | cons a ls ih =>
    cases i with
    | zero => simp [lineStart]
    | succ i =>
      rw [lineStart_cons_succ]
      have := ih i (by simpa using h)
      have := len_nonneg a
      push_cast
      omega

theorem length_Split_le (s : GoString) (sep : UInt8) :
    ((Split s sep).length : Int) ≤ len s + 1 := by
  rw [← lineStart_length_Split s sep]
  exact le_lineStart _ _ (le_refl _)

/-- The walk always ends on a line of the split, with a column that is a valid
repeat count. -/
theorem resolve_range (de : DecodeError) (hlen : len de.Input < maxInt) :
    ∃ k : Nat, k < (Split de.Input '\n'.toUInt8).length ∧ (resolve de).1 = (k : Int) ∧
      0 ≤ (resolve de).2 ∧ (resolve de).2 ≤ maxInt := by
  rcases resolve_char de hlen with ⟨k, hk, _, _, hr⟩ | ⟨_, hr⟩
  · exact ⟨k, hk, by rw [hr], by rw [hr]; exact colAt_nonneg _ _, by rw [hr]; exact colAt_le _ _⟩
  · refine ⟨0, ?_, by rw [hr]; rfl, by rw [hr], by rw [hr]; unfold maxInt; simp⟩
    exact List.length_pos.mpr (Split_ne_nil _ _)

/-- For an offset above the smallest `int` the column is at most the length of
the input, hence below the largest `int`. -/
theorem resolve_col_lt (de : DecodeError) (hlen : len de.Input < maxInt)
    (hpos : minInt < de.Pos) : (resolve de).2 < maxInt := by
  have hb := lineStart_length_Split de.Input '\n'.toUInt8
  rcases resolve_char de hlen with ⟨k, hk, hge, hlt, hr⟩ | ⟨_, hr⟩
  · have hm := lineStart_mono (Split de.Input '\n'.toUInt8) (k + 1)
      (Split de.Input '\n'.toUInt8).length (by omega)
    have h0 := lineStart_nonneg (Split de.Input '\n'.toUInt8) k
    have hlt' : lineStart (Split de.Input '\n'.toUInt8) k = 0
        ∨ lineStart (Split de.Input '\n'.toUInt8) k < de.Pos := by
      cases k with
      | zero =>
        left
        exact lineStart_zero _
      | succ k =>
        right
        exact hlt k (by omega)
    have hmax : (0 : Int) < maxInt := by decide
    rw [hr]
    simp only
    rw [colAt_eq _ _ hpos (by omega) h0 hlt']
    omega
  · rw [hr]
    unfold maxInt
    decide

/-- A target line after the first one is resolved for positive offsets only. -/
theorem pos_of_line_pos (de : DecodeError) (hlen : len de.Input < maxInt)
    (h : 0 < (resolve de).1) : 0 < de.Pos := by
  rcases resolve_char de hlen with ⟨k, _, _, hlt, hr⟩ | ⟨_, hr⟩
  · rw [hr] at h
    simp only at h
    have hk : 0 < k := by omega
    have h1 := hlt 0 hk
    have h2 := lineStart_nonneg (Split de.Input '\n'.toUInt8) (0 + 1)
    omega
  · rw [hr] at h
    simp at h

theorem Repeat_space (col : Int) (h0 : 0 ≤ col) (h1 : col < maxInt) :
    Repeat (lit " ") col = some (List.replicate col.toNat ' '.toUInt8) := by
  have hl : len (lit " ") = 1 := rfl
  have hs : lit " " = [' '.toUInt8] := rfl
  unfold Repeat
  rw [hl, if_neg (by omega), if_neg (by omega), if_neg (by omega), hs]
  congr 1
  generalize col.toNat = n
  induction n with
  | zero => rfl
  | succ n ih => simp [List.replicate_succ, ih]

theorem index_natCast (lines : List GoString) (k : Nat) : index lines (k : Int) = lines[k]? := by
  unfold index
  rw [if_neg (by omega)]
  simp

/-- The whole output of `ExtError` for a record with input and an offset above
the smallest `int`, in terms of the resolved line `k` and column. -/
theorem ExtError_shape (tab : Nat → Bool) (de : DecodeError) (hin : de.Input ≠ [])
    (hlen : len de.Input < maxInt) (hpos : minInt < de.Pos) :
    ∃ k : Nat, k < (Split de.Input '\n'.toUInt8).length ∧ (resolve de).1 = (k : Int) ∧
      0 ≤ (resolve de).2 ∧
      ExtError tab de = some (
        lit "toml: error: " ++ de.Message ++ lit "\n"
        ++ lit "             on line " ++ decimal ((k : Int) + 1)
        ++ (if de.LastKey = [] then [] else lit "; last key parsed was " ++ Quote tab de.LastKey)
        ++ lit "\n\n"
        ++ (if 1 < k then
              fmtInteger true (some 6) ((k : Int) - 1) ++ lit " | "
                ++ (Split de.Input '\n'.toUInt8).getD (k - 2) [] ++ lit "\n"
            else [])
        ++ (if 0 < k then
              fmtInteger true (some 6) (k : Int) ++ lit " | "
                ++ (Split de.Input '\n'.toUInt8).getD (k - 1) [] ++ lit "\n"
            else [])
        ++ (fmtInteger true (some 6) ((k : Int) + 1) ++ lit " | "
              ++ (Split de.Input '\n'.toUInt8).getD k [] ++ lit "\n")
        ++ (List.replicate (9 + (resolve de).2.toNat) ' '.toUInt8 ++ lit "^\n")) := by
  obtain ⟨k, hk, hline, hc0, _⟩ := resolve_range de hlen
  have hc1 := resolve_col_lt de hlen hpos
  refine ⟨k, hk, hline, hc0, ?_⟩
  have hlenle := length_Split_le de.Input '\n'.toUInt8
  have hw1 : wrapInt ((k : Int) + 1) = (k : Int) + 1 :=
    wrapInt_of_range _ (by unfold minInt; omega) (by omega)
  have hw2 : wrapInt ((k : Int) - 1) = (k : Int) - 1 :=
    wrapInt_of_range _ (by unfold minInt; omega) (by omega)
  have hw3 : wrapInt ((k : Int) - 2) = (k : Int) - 2 :=
    wrapInt_of_range _ (by unfold minInt; omega) (by omega)
  have hrep := Repeat_space (resolve de).2 hc0 hc1
  have hget : ∀ j : Nat, j ≤ k →
      (Split de.Input '\n'.toUInt8)[j]? = some ((Split de.Input '\n'.toUInt8).getD j []) := by
    intro j hj
    have hjl : j < (Split de.Input '\n'.toUInt8).length := by omega
    simp [List.getD, List.getElem?_eq_getElem hjl]
  have hi0 : index (Split de.Input '\n'.toUInt8) (k : Int)
      = some ((Split de.Input '\n'.toUInt8).getD k []) := by
    rw [index_natCast, hget k (le_refl _)]
  have hi1 : 0 < k → index (Split de.Input '\n'.toUInt8) ((k : Int) - 1)
      = some ((Split de.Input '\n'.toUInt8).getD (k - 1) []) := by
    intro h
    have e : (k : Int) - 1 = ((k - 1 : Nat) : Int) := by omega
    rw [e, index_natCast, hget (k - 1) (by omega)]
  have hi2 : 1 < k → index (Split de.Input '\n'.toUInt8) ((k : Int) - 2)
      = some ((Split de.Input '\n'.toUInt8).getD (k - 2) []) := by
    intro h
    have e : (k : Int) - 2 = ((k - 2 : Nat) : Int) := by omega
    rw [e, index_natCast, hget (k - 2) (by omega)]
  unfold ExtError
  rw [if_neg hin]
  have c1 : ((k : Int) > 1) ↔ 1 < k := by omega
  have c0 : ((k : Int) > 0) ↔ 0 < k := by omega
  simp only [hline, hw1, hw2, hw3, Fprintf_message, Fprintf_on_line, Option.some_bind,
    Option.bind_eq_bind, Option.pure_def, WriteString, c1, c0]
  by_cases hkey : de.LastKey = [] <;> by_cases h1 : 1 < k <;> by_cases h0 : 0 < k <;>
    first
    | omega
    | (simp only [hkey, h1, h0, hi0, hi1, hi2, hrep, Fprintf_row, Fprintf_caret,
        Fprintf_last_key, Option.some_bind, Option.bind_some, if_true, if_false, ne_eq,
        not_true_eq_false, not_false_eq_true, forall_true_left]
       simp [List.replicate_add])

/-! ## Decimal numbers and the line-number field -/

theorem formatUintFuel_length_le (fuel u k : Nat) (h : u < 10 ^ (k + 1)) :
    (formatUintFuel fuel u).length ≤ k + 1 := by
  induction fuel generalizing u k with
  | zero => simp [formatUintFuel]
  | succ fuel ih =>
    unfold formatUintFuel
    split
    · simp
    · rename_i h10
      cases k with
      | zero => omega
      | succ k =>
        have hu : u / 10 < 10 ^ (k + 1) := by
          rw [Nat.div_lt_iff_lt_mul (by decide)]
          rw [pow_succ] at h
          exact h
        have := ih (u / 10) k hu
        simp
        omega

theorem toNat_ofNat (n : Nat) : (UInt8.ofNat n).toNat = n % 256 := rfl

theorem formatUintFuel_ascii (fuel u : Nat) :
    ∀ b ∈ formatUintFuel fuel u, b.toNat < 0x80 := by
  induction fuel generalizing u with
  | zero => simp [formatUintFuel]
  | succ fuel ih =>
    unfold formatUintFuel
    split
    · intro b hb
      simp at hb
      subst hb
      rw [toNat_ofNat]
      omega
    · intro b hb
      simp at hb
      rcases hb with hb | hb
      · exact ih _ b hb
      · subst hb
        rw [toNat_ofNat]
        omega

theorem formatUint_length_pos (u : Nat) : 1 ≤ (formatUint u).length := by
  unfold formatUint formatUintFuel
  split <;> simp

theorem decimal_of_nonneg (n : Int) (h : 0 ≤ n) : decimal n = formatUint n.natAbs := by
  unfold decimal
  rw [if_neg (by omega)]

theorem decimal_length_pos (n : Int) : 1 ≤ (decimal n).length := by
  unfold decimal
  have := formatUint_length_pos n.natAbs
  split
  · simp
    omega
  · exact this

/-- A natural number below 100000 has at most five decimal digits. -/
theorem decimal_length_le_five (n : Int) (h0 : 0 ≤ n) (h : n < 100000) :
    (decimal n).length ≤ 5 := by
  rw [decimal_of_nonneg n h0]
  exact formatUintFuel_length_le _ _ 4 (by omega)

theorem runeCountFrom_ascii (s : GoString) (h : ∀ b ∈ s, b.toNat < 0x80) :
    runeCountFrom s 0 = s.length := by
  induction s with
  | nil => rfl
  | cons b rest ih =>
    have hb : b.toNat < 0x80 := h b (by simp)
    have hd : (DecodeRune (b :: rest)).2 = 1 := by
      simp [DecodeRune, hb]
    rw [runeCountFrom, hd, ih (fun c hc => h c (by simp [hc]))]
    simp
    omega

/-- What the verb `% 6d` prints for a number that is not negative: its decimal
digits after at least one space, and after as many as make six characters. -/
theorem fmtInteger_field (n : Int) (h : 0 ≤ n) :
    fmtInteger true (some 6) n
      = List.replicate (max 1 (6 - (decimal n).length)) ' '.toUInt8 ++ decimal n := by
  rw [decimal_of_nonneg n h]
  have hasc : ∀ b ∈ ' '.toUInt8 :: formatUint n.natAbs, b.toNat < 0x80 := by
    intro b hb
    simp at hb
    rcases hb with hb | hb
    · subst hb
      decide
    · exact formatUintFuel_ascii _ _ b hb
  have hcount : RuneCount (' '.toUInt8 :: formatUint n.natAbs)
      = (formatUint n.natAbs).length + 1 := by
    unfold RuneCount
    rw [runeCountFrom_ascii _ hasc]
    simp
  unfold fmtInteger pad
  rw [if_neg (by omega)]
  simp only [if_true, hcount]
  have hpos := formatUint_length_pos n.natAbs
  have e : max 1 (6 - (formatUint n.natAbs).length)
      = (6 - ((formatUint n.natAbs).length + 1)) + 1 := by omega
  rw [e, List.replicate_succ']
  simp

/-- The end of the output of `ExtError`: after a newline come the target row and
the caret line. -/
theorem ExtError_target_row (tab : Nat → Bool) (de : DecodeError) (hin : de.Input ≠ [])
    (hlen : len de.Input < maxInt) (hpos : minInt < de.Pos) :
    ∃ (k : Nat) (pre : GoString), k < (Split de.Input '\n'.toUInt8).length ∧
      (resolve de).1 = (k : Int) ∧ 0 ≤ (resolve de).2 ∧
      ExtError tab de = some (
        pre ++ lit "\n"
        ++ (fmtInteger true (some 6) ((k : Int) + 1) ++ lit " | "
              ++ (Split de.Input '\n'.toUInt8).getD k [] ++ lit "\n")
        ++ (List.replicate (9 + (resolve de).2.toNat) ' '.toUInt8 ++ lit "^\n")) := by
  obtain ⟨k, hk, hline, hc0, hout⟩ := ExtError_shape tab de hin hlen hpos
  have hnn : lit "\n\n" = lit "\n" ++ lit "\n" := rfl
  by_cases h0 : 0 < k
  · refine ⟨k, lit "toml: error: " ++ de.Message ++ lit "\n"
        ++ lit "             on line " ++ decimal ((k : Int) + 1)
        ++ (if de.LastKey = [] then [] else lit "; last key parsed was " ++ Quote tab de.LastKey)
        ++ lit "\n\n"
        ++ (if 1 < k then
              fmtInteger true (some 6) ((k : Int) - 1) ++ lit " | "
                ++ (Split de.Input '\n'.toUInt8).getD (k - 2) [] ++ lit "\n"
            else [])
        ++ (fmtInteger true (some 6) (k : Int) ++ lit " | "
                ++ (Split de.Input '\n'.toUInt8).getD (k - 1) []), hk, hline, hc0, ?_⟩
    rw [hout, if_pos h0]
    simp only [List.append_assoc]
  · have hk0 : k = 0 := by omega
    subst hk0
    refine ⟨0, lit "toml: error: " ++ de.Message ++ lit "\n"
        ++ lit "             on line " ++ decimal (((0 : Nat) : Int) + 1)
        ++ (if de.LastKey = [] then [] else lit "; last key parsed was " ++ Quote tab de.LastKey)
        ++ lit "\n", hk, hline, hc0, ?_⟩
    rw [hout, hnn]
    simp only [Nat.lt_irrefl, if_false, Nat.not_lt_zero, List.append_nil, List.append_assoc]

/-! ## The claims -/

/-- C1: `Error()` returns exactly `"toml: line " ++ decimal(Line) ++ ": " ++ Message`
when `LastKey` is empty and exactly `"toml: line " ++ decimal(Line) ++
" (last key parsed '" ++ LastKey ++ "'): " ++ Message` otherwise; it uses the
record's own `Line` and does not depend on `Pos` or `Input`. -/
theorem Error_format (tab : Nat → Bool) (de : DecodeError) :
    Error tab de = some (
      if de.LastKey = [] then lit "toml: line " ++ decimal de.Line ++ lit ": " ++ de.Message
      else lit "toml: line " ++ decimal de.Line ++ lit " (last key parsed '" ++ de.LastKey
        ++ lit "'): " ++ de.Message)
    ∧ ∀ (pos : Int) (input : GoString),
        Error tab { de with Pos := pos, Input := input } = Error tab de := by
  refine ⟨?_, fun _ _ => rfl⟩
  unfold Error
  split
  · rw [Sprintf_compact]
    simp
  · rw [Sprintf_compact_key]
    simp

/-- C2: for a record whose `Input` is empty, `ExtError()` returns the same string
as `Error()`, whatever `Message`, `Line`, `Pos` and `LastKey` are. -/
theorem ExtError_without_input (tab : Nat → Bool) (message : GoString) (line pos : Int)
    (lastKey : GoString) :
    ExtError tab ⟨message, line, pos, lastKey, []⟩ = Error tab ⟨message, line, pos, lastKey, []⟩ := by
  simp [ExtError]

/-- C3, counterexample: in `"line1\nline2\nline3\n"` the byte at index 6 is the
first byte of `line2` (line 1 of the split begins at 6 and holds 5 bytes), yet
for the offset 6 the walk stops on line 0 and the target row shows `line1`. -/
theorem offset_at_line_start_resolves_previous_line :
    (Split threeLines '\n'.toUInt8)[1]? = some (lit "line2") ∧
    lineStart (Split threeLines '\n'.toUInt8) 1 ≤ 6 ∧
    6 < lineStart (Split threeLines '\n'.toUInt8) 1 + len (lit "line2") ∧
    (resolve (sample 6 [])).1 = 0 ∧
    ExtError emptyTab (sample 6 []) = some (lit
      "toml: error: bad value\n             on line 1\n\n     1 | line1\n              ^\n") := by
  decide

/-- C3, amended: for a non-empty input and an offset inside the content of line
`k` of the split (`start_k ≤ offset < start_k + len(lines[k])`) that is not the
first byte of a line `k > 0` (`k = 0` or `start_k < offset`), `ExtError`
resolves the target line to `k`: the row before the caret line shows `lines[k]`
numbered `k + 1`. -/
theorem resolve_offset_inside_line (tab : Nat → Bool) (de : DecodeError) (k : Nat)
    (l : GoString) (hin : de.Input ≠ []) (hlen : len de.Input < maxInt)
    (hl : (Split de.Input '\n'.toUInt8)[k]? = some l)
    (h1 : lineStart (Split de.Input '\n'.toUInt8) k ≤ de.Pos)
    (h2 : de.Pos < lineStart (Split de.Input '\n'.toUInt8) k + len l)
    (h3 : k = 0 ∨ lineStart (Split de.Input '\n'.toUInt8) k < de.Pos) :
    (resolve de).1 = (k : Int) ∧
    ∃ pre : GoString, ExtError tab de = some (
      pre ++ lit "\n"
      ++ (List.replicate (max 1 (6 - (decimal ((k : Int) + 1)).length)) ' '.toUInt8
            ++ decimal ((k : Int) + 1) ++ lit " | " ++ l ++ lit "\n")
      ++ (List.replicate (9 + (resolve de).2.toNat) ' '.toUInt8 ++ lit "^\n")) := by
  have hmin : minInt < de.Pos := by
    have := lineStart_nonneg (Split de.Input '\n'.toUInt8) k
    unfold minInt
    omega
  obtain ⟨k', pre, hk', hline, _, hout⟩ := ExtError_target_row tab de hin hlen hmin
  have hsucc := lineStart_succ _ k l hl
  have hkk : k' = k := by
    rcases resolve_char de hlen with ⟨k2, _, hge, hlt, hr⟩ | ⟨hlt, _⟩
    · have e : k' = k2 := by
        have := hline
        rw [hr] at this
        simp only at this
        exact_mod_cast this.symm
      subst e
      rcases Nat.lt_trichotomy k' k with h | h | h
      · have hm := lineStart_mono (Split de.Input '\n'.toUInt8) (k' + 1) k (by omega)
        rcases h3 with h3 | h3
        · omega
        · omega
      · exact h
      · have := hlt k h
        omega
    · have hk : k < (Split de.Input '\n'.toUInt8).length := by
        rcases Nat.lt_or_ge k (Split de.Input '\n'.toUInt8).length with h | h
        · exact h
        · rw [List.getElem?_eq_none h] at hl
          cases hl
      have := hlt k hk
      omega
  subst hkk
  have hget : (Split de.Input '\n'.toUInt8).getD k' [] = l := by
    simp [List.getD, hl]
  refine ⟨hline, pre, ?_⟩
  rw [hout, hget, fmtInteger_field _ (by omega)]

/-- C3, witness: the specification's example, offset 7 inside `line2`. -/
theorem resolve_offset_inside_line_witness :
    (resolve (sample 7 [])).1 = ((1 : Nat) : Int) ∧
    ∃ pre : GoString, ExtError emptyTab (sample 7 []) = some (
      pre ++ lit "\n"
      ++ (List.replicate (max 1 (6 - (decimal (((1 : Nat) : Int) + 1)).length)) ' '.toUInt8
            ++ decimal (((1 : Nat) : Int) + 1) ++ lit " | " ++ lit "line2" ++ lit "\n")
      ++ (List.replicate (9 + (resolve (sample 7 [])).2.toNat) ' '.toUInt8 ++ lit "^\n")) :=
  resolve_offset_inside_line emptyTab (sample 7 []) 1 (lit "line2") (by decide) (by decide)
    (by decide) (by decide) (by decide) (by decide)

/-- C4, the failing input: with `Pos` the smallest `int`, `Pos - pos - 1`
overflows and the column is the largest `int`, where the walk of the
specification gives `max(0, Pos - 0 - 1) = 0`. -/
theorem resolve_wraps_at_minInt :
    resolve ⟨lit "m", 1, minInt, [], lit "a"⟩ = (0, maxInt) ∧
    max 0 (minInt - lineStart (Split (lit "a") '\n'.toUInt8) 0 - 1) = 0 := by
  decide

/-- The walk of `ExtError` against the walk of the specification, for every
offset above the smallest `int`: the target is the least line `k` with
`sum over j ≤ k of (len(lines[j]) + 1) ≥ Pos` and the column is
`max(0, Pos - (sum over j < k of (len(lines[j]) + 1)) - 1)`; when there is no
such line, both are 0. -/
theorem resolve_refines_walk (de : DecodeError) (hlen : len de.Input < maxInt)
    (h1 : minInt < de.Pos) (h2 : de.Pos ≤ maxInt) :
    (∃ k : Nat, k < (Split de.Input '\n'.toUInt8).length ∧
        de.Pos ≤ lineStart (Split de.Input '\n'.toUInt8) (k + 1) ∧
        (∀ j : Nat, j < k → lineStart (Split de.Input '\n'.toUInt8) (j + 1) < de.Pos) ∧
        resolve de = ((k : Int),
          max 0 (de.Pos - lineStart (Split de.Input '\n'.toUInt8) k - 1)))
    ∨ ((∀ j : Nat, j < (Split de.Input '\n'.toUInt8).length →
          lineStart (Split de.Input '\n'.toUInt8) (j + 1) < de.Pos) ∧
        resolve de = (0, 0)) := by
  rcases resolve_char de hlen with ⟨k, hk, hge, hlt, hr⟩ | h
  · left
    refine ⟨k, hk, hge, hlt, ?_⟩
    rw [hr, colAt_eq _ _ h1 h2 (lineStart_nonneg _ _)]
    cases k with
    | zero =>
      left
      exact lineStart_zero _
    | succ k =>
      right
      exact hlt k (by omega)
  · right
    exact h

/-- The walk against the walk of the specification on the example: offset 7. -/
theorem resolve_refines_walk_witness :
    len threeLines < maxInt ∧ minInt < (7 : Int) ∧ (7 : Int) ≤ maxInt ∧
    ((∃ k : Nat, k < (Split (sample 7 []).Input '\n'.toUInt8).length ∧
        (sample 7 []).Pos ≤ lineStart (Split (sample 7 []).Input '\n'.toUInt8) (k + 1) ∧
        (∀ j : Nat, j < k →
          lineStart (Split (sample 7 []).Input '\n'.toUInt8) (j + 1) < (sample 7 []).Pos) ∧
        resolve (sample 7 []) = ((k : Int),
          max 0 ((sample 7 []).Pos - lineStart (Split (sample 7 []).Input '\n'.toUInt8) k - 1)))
    ∨ ((∀ j : Nat, j < (Split (sample 7 []).Input '\n'.toUInt8).length →
          lineStart (Split (sample 7 []).Input '\n'.toUInt8) (j + 1) < (sample 7 []).Pos) ∧
        resolve (sample 7 []) = (0, 0))) :=
  ⟨by decide, by decide, by decide,
    resolve_refines_walk (sample 7 []) (by decide) (by decide) (by decide)⟩

/-- C5, counterexample: `"line1\nline2\nline3\n"` holds 18 bytes, the offset 19
is greater, and yet the walk stops on the last line of the split (index 3, column
0): the header says line 4 and three rows are shown. -/
theorem offset_one_past_end_selects_last_line :
    len threeLines < 19 ∧
    resolve (sample 19 []) = (3, 0) ∧
    ExtError emptyTab (sample 19 []) = some (lit
      "toml: error: bad value\n             on line 4\n\n     2 | line2\n     3 | line3\n     4 | \n         ^\n") := by
  decide

/-- C5, amended: for a record with non-empty `Input` and an offset greater than
`len(Input) + 1`, `ExtError` falls back to line 0 and column 0: the header says
`on line 1`, the only source row is the first line of the input numbered 1, and
the caret line is 9 spaces followed by `^`. -/
theorem ExtError_fallback (tab : Nat → Bool) (de : DecodeError) (hin : de.Input ≠ [])
    (hlen : len de.Input < maxInt) (hpos : len de.Input + 1 < de.Pos) :
    resolve de = (0, 0) ∧
    ExtError tab de = some (
      lit "toml: error: " ++ de.Message ++ lit "\n"
      ++ lit "             on line 1"
      ++ (if de.LastKey = [] then [] else lit "; last key parsed was " ++ Quote tab de.LastKey)
      ++ lit "\n\n"
      ++ (lit "     1 | " ++ (Split de.Input '\n'.toUInt8).getD 0 [] ++ lit "\n")
      ++ (List.replicate 9 ' '.toUInt8 ++ lit "^\n")) := by
  have hres : resolve de = (0, 0) := by
    rcases resolve_char de hlen with ⟨k, hk, hge, _, _⟩ | ⟨_, hr⟩
    · have hm := lineStart_mono (Split de.Input '\n'.toUInt8) (k + 1)
        (Split de.Input '\n'.toUInt8).length (by omega)
      rw [lineStart_length_Split] at hm
      omega
    · exact hr
  refine ⟨hres, ?_⟩
  have hmin : minInt < de.Pos := by
    have := len_nonneg de.Input
    unfold minInt
    omega
  obtain ⟨k, _, hline, _, hout⟩ := ExtError_shape tab de hin hlen hmin
  have hk0 : k = 0 := by
    rw [hres] at hline
    simp only at hline
    exact_mod_cast hline.symm
  subst hk0
  have e1 : decimal (((0 : Nat) : Int) + 1) = lit "1" := by decide
  have e2 : fmtInteger true (some 6) (((0 : Nat) : Int) + 1) = lit "     1" := by decide
  have e3 : lit "     1" ++ lit " | " = lit "     1 | " := by decide
  have e4 : lit "             on line " ++ lit "1" = lit "             on line 1" := by decide
  rw [hout, hres, e1, e2, ← e3, ← e4]
  simp

/-- C5, witness: offset 20 on the 18 bytes of `"line1\nline2\nline3\n"`. -/
theorem ExtError_fallback_witness :
    len threeLines + 1 < 20 ∧
    resolve (sample 20 []) = (0, 0) ∧
    ExtError emptyTab (sample 20 []) = some (
      lit "toml: error: " ++ (sample 20 []).Message ++ lit "\n"
      ++ lit "             on line 1"
      ++ (if (sample 20 []).LastKey = [] then []
          else lit "; last key parsed was " ++ Quote emptyTab (sample 20 []).LastKey)
      ++ lit "\n\n"
      ++ (lit "     1 | " ++ (Split (sample 20 []).Input '\n'.toUInt8).getD 0 [] ++ lit "\n")
      ++ (List.replicate 9 ' '.toUInt8 ++ lit "^\n")) :=
  ⟨by decide, ExtError_fallback emptyTab (sample 20 []) (by decide) (by decide) (by decide)⟩

/-- C6, the failing input: with `Pos` the smallest `int`, the repeat count that
`ExtError` passes to `strings.Repeat` is the largest `int`, `9223372036854775807`,
and the string `ExtError` would have to return is longer than an `int` can
count: `strings.Repeat` panics and `ExtError` returns nothing. -/
theorem repeat_count_at_minInt :
    (resolve ⟨lit "m", 1, minInt, [], lit "a"⟩).2 = 9223372036854775807 ∧
    (∀ out : GoString, ExtError emptyTab ⟨lit "m", 1, minInt, [], lit "a"⟩ = some out →
      maxInt < len out) ∧
    Repeat (lit " ") (resolve ⟨lit "m", 1, minInt, [], lit "a"⟩).2 = none ∧
    ExtError emptyTab ⟨lit "m", 1, minInt, [], lit "a"⟩ = none := by
  have hnone : ExtError emptyTab ⟨lit "m", 1, minInt, [], lit "a"⟩ = none := by
    decide
  refine ⟨by decide, ?_, by decide, hnone⟩
  intro out hout
  rw [hnone] at hout
  cases hout

/-- For every record whose input fits an `int`, and every integer `Pos`: the
split has at least one element, the resolved line is a valid index of the split,
`lines[line-2]` (read only when `line > 1`) and `lines[line-1]` (read only when
`line > 0`) are in bounds, and the repeat count passed to `strings.Repeat` is
not negative; for an offset above the smallest `int` the count is below the
largest `int` and `strings.Repeat` returns. -/
theorem ExtError_accesses_in_bounds (de : DecodeError) (hlen : len de.Input < maxInt) :
    Split de.Input '\n'.toUInt8 ≠ [] ∧
    0 ≤ (resolve de).1 ∧ (resolve de).1 < ((Split de.Input '\n'.toUInt8).length : Int) ∧
    ((resolve de).1 > 1 →
      ∃ l, index (Split de.Input '\n'.toUInt8) (wrapInt ((resolve de).1 - 2)) = some l) ∧
    ((resolve de).1 > 0 →
      ∃ l, index (Split de.Input '\n'.toUInt8) (wrapInt ((resolve de).1 - 1)) = some l) ∧
    (∃ l, index (Split de.Input '\n'.toUInt8) (resolve de).1 = some l) ∧
    0 ≤ (resolve de).2 ∧
    (minInt < de.Pos → ∃ sp, Repeat (lit " ") (resolve de).2 = some sp) := by
  obtain ⟨k, hk, hline, hc0, _⟩ := resolve_range de hlen
  have hlenle := length_Split_le de.Input '\n'.toUInt8
  have hidx : ∀ j : Nat, j ≤ k → ∃ l, index (Split de.Input '\n'.toUInt8) (j : Int) = some l := by
    intro j hj
    have hjl : j < (Split de.Input '\n'.toUInt8).length := by omega
    exact ⟨_, by rw [index_natCast, List.getElem?_eq_getElem hjl]⟩
  refine ⟨Split_ne_nil _ _, by omega, by omega, ?_, ?_, ?_, hc0,
    fun hpos => ⟨_, Repeat_space _ hc0 (resolve_col_lt de hlen hpos)⟩⟩
  · intro h
    rw [hline] at h ⊢
    have e : wrapInt ((k : Int) - 2) = ((k - 2 : Nat) : Int) := by
      rw [wrapInt_of_range _ (by unfold minInt; omega) (by omega)]
      omega
    rw [e]
    exact hidx (k - 2) (by omega)
  · intro h
    rw [hline] at h ⊢
    have e : wrapInt ((k : Int) - 1) = ((k - 1 : Nat) : Int) := by
      rw [wrapInt_of_range _ (by unfold minInt; omega) (by omega)]
      omega
    rw [e]
    exact hidx (k - 1) (by omega)
  · rw [hline]
    exact hidx k (le_refl _)

/-- The accesses are in bounds for a negative offset on the example input. -/
theorem ExtError_accesses_in_bounds_witness :
    len (sample (-3) []).Input < maxInt ∧
    0 ≤ (resolve (sample (-3) [])).2 ∧
    (minInt < (sample (-3) []).Pos →
      ∃ sp, Repeat (lit " ") (resolve (sample (-3) [])).2 = some sp) :=
  ⟨by decide, (ExtError_accesses_in_bounds (sample (-3) []) (by decide)).2.2.2.2.2.2⟩

/-- C7: for a record with non-empty `Input` (and an offset above the smallest
`int`, where `ExtError` has an output), the last line of the output of `ExtError`
is exactly `9 + col` spaces followed by one `^` and a newline, `col` being the
column resolved by the walk (which is not negative). -/
theorem ExtError_caret_line (tab : Nat → Bool) (de : DecodeError) (hin : de.Input ≠ [])
    (hlen : len de.Input < maxInt) (hpos : minInt < de.Pos) :
    0 ≤ (resolve de).2 ∧
    ∃ pre : GoString, ExtError tab de = some (
      pre ++ lit "\n" ++ List.replicate (9 + (resolve de).2.toNat) ' '.toUInt8 ++ lit "^\n") := by
  obtain ⟨k, pre, _, _, hc0, hout⟩ := ExtError_target_row tab de hin hlen hpos
  refine ⟨hc0, pre ++ lit "\n" ++ (fmtInteger true (some 6) ((k : Int) + 1) ++ lit " | "
      ++ (Split de.Input '\n'.toUInt8).getD k []), ?_⟩
  rw [hout]
  simp only [List.append_assoc]

/-- C7, witness: offset 17 on the example input, column 4. -/
theorem ExtError_caret_line_witness :
    (resolve (sample 17 [])).2 = 4 ∧
    0 ≤ (resolve (sample 17 [])).2 ∧
    ∃ pre : GoString, ExtError emptyTab (sample 17 []) = some (
      pre ++ lit "\n" ++ List.replicate (9 + (resolve (sample 17 [])).2.toNat) ' '.toUInt8
        ++ lit "^\n") :=
  ⟨by decide, ExtError_caret_line emptyTab (sample 17 []) (by decide) (by decide) (by decide)⟩

theorem Split_replicate (n : Nat) (sep : UInt8) :
    Split (List.replicate n sep) sep = List.replicate (n + 1) [] := by
  induction n with
  | zero => rfl
  | succ n ih =>
    rw [List.replicate_succ, Split, if_pos rfl, ih]
    rfl

theorem lineStart_replicate_nil (m j : Nat) (h : j ≤ m) :
    lineStart (List.replicate m ([] : GoString)) j = (j : Int) := by
  induction m generalizing j with
  | zero =>
    have : j = 0 := by omega
    subst this
    rfl
  | succ m ih =>
    cases j with
    | zero => rfl
    | succ j =>
      rw [List.replicate_succ, lineStart_cons_succ, ih j (by omega)]
      simp [len]
      omega

theorem getD_replicate_nil (m j : Nat) :
    (List.replicate m ([] : GoString)).getD j [] = [] := by
  simp only [List.getD_eq_getElem?_getD, List.getElem?_replicate]
  split <;> rfl

/-- C8, counterexample: on an input of 100000 lines with the offset on the last
one, the number 100000 is printed as ` 100000`, a field of 7 characters: the
text before the content of the target row is 10 characters wide, and the `^`,
after 9 spaces, stands one column to the left of byte 0 of the content. -/
theorem row_field_wider_than_six :
    ExtError emptyTab ⟨lit "m", 1, 100000, [], manyLines⟩ = some (lit
      "toml: error: m\n             on line 100000\n\n 99998 | \n 99999 | \n 100000 | \n         ^\n")
    ∧ (lit " 100000").length = 7 ∧ (lit " 100000 | ").length = 10 := by
  refine ⟨?_, by decide, by decide⟩
  have hin : (⟨lit "m", 1, 100000, [], manyLines⟩ : DecodeError).Input ≠ [] := by
    show manyLines ≠ []
    unfold manyLines
    intro h
    have := congrArg List.length h
    rw [List.length_replicate] at this
    simp at this
  have hlen : len (⟨lit "m", 1, 100000, [], manyLines⟩ : DecodeError).Input < maxInt := by
    show len manyLines < maxInt
    unfold manyLines len maxInt
    rw [List.length_replicate]
    decide
  have hsplit : Split manyLines '\n'.toUInt8 = List.replicate 100000 [] :=
    Split_replicate 99999 _
  have hres : resolve ⟨lit "m", 1, 100000, [], manyLines⟩ = (99999, 0) := by
    rcases resolve_char ⟨lit "m", 1, 100000, [], manyLines⟩ hlen with
      ⟨k, hk, hge, hlt, hr⟩ | ⟨hlt, _⟩
    · simp only [hsplit, List.length_replicate] at hk hge hlt hr
      rw [lineStart_replicate_nil _ _ (by omega)] at hge
      have hk9 : k = 99999 := by
        rcases Nat.lt_or_ge k 99999 with h | h
        · have := hlt 99998 (by omega)
          rw [lineStart_replicate_nil _ _ (by omega)] at this
          omega
        · omega
      subst hk9
      rw [hr, lineStart_replicate_nil _ _ (by omega)]
      decide
    · simp only [hsplit, List.length_replicate] at hlt
      have := hlt 99999 (by omega)
      rw [lineStart_replicate_nil _ _ (by omega)] at this
      omega
  obtain ⟨k, _, hline, _, hout⟩ := ExtError_shape emptyTab _ hin hlen (by decide)
  have hk9 : k = 99999 := by
    rw [hres] at hline
    simp only at hline
    exact_mod_cast hline.symm
  subst hk9
  have e1 : decimal (((99999 : Nat) : Int) + 1) = lit "100000" := by decide
  have e2 : fmtInteger true (some 6) (((99999 : Nat) : Int) + 1) = lit " 100000" := by decide
  have e3 : fmtInteger true (some 6) ((99999 : Nat) : Int) = lit " 99999" := by decide
  have e4 : fmtInteger true (some 6) (((99999 : Nat) : Int) - 1) = lit " 99998" := by decide
  rw [hout, hres]
  simp only [hsplit, getD_replicate_nil, e1, e2, e3, e4]
  decide

/-- The field of a line number below 100000 is its decimal digits after the
spaces that make six characters. -/
theorem fmtInteger_field_small (n : Int) (h0 : 0 ≤ n) (h : n < 100000) :
    fmtInteger true (some 6) n
      = List.replicate (6 - (decimal n).length) ' '.toUInt8 ++ decimal n := by
  have h5 := decimal_length_le_five n h0 h
  rw [fmtInteger_field n h0]
  congr 2
  omega

/-- C8, amended: for a record with non-empty `Input` (and an offset above the
smallest `int`, where `ExtError` has an output) whose target line number is
below 100000, every source row of the output of `ExtError` is a line number
right-aligned in a field of exactly 6 characters, then ` | `, then the raw line;
the text before the content of the target row is 9 characters wide and the caret
line is `9 + col` spaces followed by `^`, so the `^` stands in the column of byte
`col` of the target line. -/
theorem ExtError_rows_aligned (tab : Nat → Bool) (de : DecodeError) (hin : de.Input ≠ [])
    (hlen : len de.Input < maxInt) (hpos : minInt < de.Pos)
    (hsmall : (resolve de).1 + 1 < 100000) :
    ∃ k : Nat, (resolve de).1 = (k : Int) ∧ 0 ≤ (resolve de).2 ∧
      ExtError tab de = some (
        (lit "toml: error: " ++ de.Message ++ lit "\n"
          ++ lit "             on line " ++ decimal ((k : Int) + 1)
          ++ (if de.LastKey = [] then []
              else lit "; last key parsed was " ++ Quote tab de.LastKey)
          ++ lit "\n\n")
        ++ (if 1 < k then
              (List.replicate (6 - (decimal ((k : Int) - 1)).length) ' '.toUInt8
                ++ decimal ((k : Int) - 1))
                ++ lit " | " ++ (Split de.Input '\n'.toUInt8).getD (k - 2) [] ++ lit "\n"
            else [])
        ++ (if 0 < k then
              (List.replicate (6 - (decimal (k : Int)).length) ' '.toUInt8 ++ decimal (k : Int))
                ++ lit " | " ++ (Split de.Input '\n'.toUInt8).getD (k - 1) [] ++ lit "\n"
            else [])
        ++ ((List.replicate (6 - (decimal ((k : Int) + 1)).length) ' '.toUInt8
              ++ decimal ((k : Int) + 1))
              ++ lit " | " ++ (Split de.Input '\n'.toUInt8).getD k [] ++ lit "\n")
        ++ (List.replicate (9 + (resolve de).2.toNat) ' '.toUInt8 ++ lit "^\n"))
      ∧ (∀ n : Int, 0 ≤ n → n ≤ (k : Int) + 1 →
          (List.replicate (6 - (decimal n).length) ' '.toUInt8 ++ decimal n).length = 6)
      ∧ ((List.replicate (6 - (decimal ((k : Int) + 1)).length) ' '.toUInt8
            ++ decimal ((k : Int) + 1)) ++ lit " | ").length = 9 := by
  obtain ⟨k, _, hline, hc0, hout⟩ := ExtError_shape tab de hin hlen hpos
  rw [hline] at hsmall
  have hfield : ∀ n : Int, 0 ≤ n → n ≤ (k : Int) + 1 →
      (List.replicate (6 - (decimal n).length) ' '.toUInt8 ++ decimal n).length = 6 := by
    intro n h0 h1
    have h5 := decimal_length_le_five n h0 (by omega)
    rw [List.length_append, List.length_replicate]
    omega
  refine ⟨k, hline, hc0, ?_, hfield, ?_⟩
  · rw [hout, fmtInteger_field_small ((k : Int) + 1) (by omega) hsmall]
    by_cases h1 : 1 < k
    · have h0 : 0 < k := by omega
      rw [if_pos h1, if_pos h0, if_pos h1, if_pos h0,
        fmtInteger_field_small ((k : Int) - 1) (by omega) (by omega),
        fmtInteger_field_small (k : Int) (by omega) (by omega)]
    · by_cases h0 : 0 < k
      · rw [if_neg h1, if_pos h0, if_neg h1, if_pos h0,
          fmtInteger_field_small (k : Int) (by omega) (by omega)]
      · rw [if_neg h1, if_neg h0, if_neg h1, if_neg h0]
  · have h3 : (lit " | ").length = 3 := rfl
    rw [List.length_append, hfield _ (by omega) (le_refl _), h3]

/-- C8, witness: offset 17 on the example input, target line 3. -/
theorem ExtError_rows_aligned_witness :
    (resolve (sample 17 [])).1 + 1 < 100000 ∧
    ∃ k : Nat, (resolve (sample 17 [])).1 = (k : Int) ∧ 0 ≤ (resolve (sample 17 [])).2 ∧
      ExtError emptyTab (sample 17 []) = some (
        (lit "toml: error: " ++ (sample 17 []).Message ++ lit "\n"
          ++ lit "             on line " ++ decimal ((k : Int) + 1)
          ++ (if (sample 17 []).LastKey = [] then []
              else lit "; last key parsed was " ++ Quote emptyTab (sample 17 []).LastKey)
          ++ lit "\n\n")
        ++ (if 1 < k then
              (List.replicate (6 - (decimal ((k : Int) - 1)).length) ' '.toUInt8
                ++ decimal ((k : Int) - 1))
                ++ lit " | " ++ (Split (sample 17 []).Input '\n'.toUInt8).getD (k - 2) []
                ++ lit "\n"
            else [])
        ++ (if 0 < k then
              (List.replicate (6 - (decimal (k : Int)).length) ' '.toUInt8 ++ decimal (k : Int))
                ++ lit " | " ++ (Split (sample 17 []).Input '\n'.toUInt8).getD (k - 1) []
                ++ lit "\n"
            else [])
        ++ ((List.replicate (6 - (decimal ((k : Int) + 1)).length) ' '.toUInt8
              ++ decimal ((k : Int) + 1))
              ++ lit " | " ++ (Split (sample 17 []).Input '\n'.toUInt8).getD k [] ++ lit "\n")
        ++ (List.replicate (9 + (resolve (sample 17 [])).2.toNat) ' '.toUInt8 ++ lit "^\n"))
      ∧ (∀ n : Int, 0 ≤ n → n ≤ (k : Int) + 1 →
          (List.replicate (6 - (decimal n).length) ' '.toUInt8 ++ decimal n).length = 6)
      ∧ ((List.replicate (6 - (decimal ((k : Int) + 1)).length) ' '.toUInt8
            ++ decimal ((k : Int) + 1)) ++ lit " | ").length = 9 :=
  ⟨by decide, ExtError_rows_aligned emptyTab (sample 17 []) (by decide) (by decide) (by decide)
    (by decide)⟩

/-! ## Quoting of the last key -/

theorem ofNat_toNat (b : UInt8) : UInt8.ofNat b.toNat = b := by
  apply UInt8.ext
  rw [toNat_ofNat]
  exact Nat.mod_eq_of_lt b.toNat_lt

/-- `strconv.Quote` leaves printable ASCII other than `"` and `\` as it is. -/
theorem quoteFrom_plain (tab : Nat → Bool) (s : GoString)
    (h : ∀ b ∈ s, 0x20 ≤ b.toNat ∧ b.toNat ≤ 0x7E ∧ b.toNat ≠ 0x22 ∧ b.toNat ≠ 0x5C) :
    quoteFrom tab s 0 = s := by
  induction s with
  | nil => rfl
  | cons b rest ih =>
    obtain ⟨h1, h2, h3, h4⟩ := h b (by simp)
    have hrest := ih (fun c hc => h c (by simp [hc]))
    have hlt : ¬ (0x80 ≤ b.toNat) := by omega
    have hesc : appendEscapedRune tab b.toNat = [b] := by
      unfold appendEscapedRune IsPrint EncodeRune
      have hb : (b.toNat = 0x22 || b.toNat = 0x5C) = false := by simp [h3, h4]
      have hp : (decide (0x20 ≤ b.toNat) && decide (b.toNat ≤ 0x7E)) = true := by simp [h1, h2]
      rw [hb, if_pos (by omega : b.toNat ≤ 0xFF), hp]
      simp only [if_true, Bool.false_eq_true, if_false]
      rw [if_pos (by omega : b.toNat ≤ 0x7F), ofNat_toNat]
    rw [quoteFrom, if_neg hlt]
    have hne : ¬ ((b.toNat, 1).2 = 1 ∧ (b.toNat, 1).1 = RuneError) := by
      unfold RuneError
      simp only
      omega
    rw [if_neg hne]
    simp only [hesc, Nat.sub_self, hrest]
    rfl

/-- C9, counterexample: the key `a"b` is printed as `"a\"b"`, with a backslash
that the key does not hold. -/
theorem last_key_is_escaped :
    ExtError emptyTab (sample 7 (lit "a\"b")) = some (lit
      "toml: error: bad value\n             on line 2; last key parsed was \"a\\\"b\"\n\n     1 | line1\n     2 | line2\n         ^\n")
    ∧ lit "             on line 2; last key parsed was \"a\\\"b\""
      ≠ List.replicate 13 ' '.toUInt8 ++ lit "on line " ++ decimal 2
          ++ lit "; last key parsed was \"" ++ lit "a\"b" ++ lit "\"" := by
  decide

/-- C9, amended: for a record with non-empty `Input` and non-empty `LastKey` (and
an offset above the smallest `int`, where `ExtError` has an output), the line
after the message line is exactly 13 spaces, `on line `, the decimal target
line number, `; last key parsed was ` and `strconv.Quote(LastKey)`; when every
byte of the key is printable ASCII other than `"` and `\`, that is the key
itself, unchanged, between two double quotes. -/
theorem ExtError_second_line_quotes_key (tab : Nat → Bool) (de : DecodeError)
    (hin : de.Input ≠ []) (hlen : len de.Input < maxInt) (hpos : minInt < de.Pos)
    (hkey : de.LastKey ≠ []) :
    (∃ rest : GoString, ExtError tab de = some (
      lit "toml: error: " ++ de.Message ++ lit "\n"
      ++ (List.replicate 13 ' '.toUInt8 ++ lit "on line " ++ decimal ((resolve de).1 + 1)
            ++ lit "; last key parsed was " ++ Quote tab de.LastKey)
      ++ lit "\n" ++ rest))
    ∧ ((∀ b ∈ de.LastKey,
          0x20 ≤ b.toNat ∧ b.toNat ≤ 0x7E ∧ b.toNat ≠ 0x22 ∧ b.toNat ≠ 0x5C) →
        Quote tab de.LastKey = lit "\"" ++ de.LastKey ++ lit "\"") := by
  obtain ⟨k, _, hline, _, hout⟩ := ExtError_shape tab de hin hlen hpos
  have hnn : lit "\n\n" = lit "\n" ++ lit "\n" := rfl
  have h13 : lit "             on line " = List.replicate 13 ' '.toUInt8 ++ lit "on line " := by
    decide
  refine ⟨⟨lit "\n"
      ++ (if 1 < k then
            fmtInteger true (some 6) ((k : Int) - 1) ++ lit " | "
              ++ (Split de.Input '\n'.toUInt8).getD (k - 2) [] ++ lit "\n"
          else [])
      ++ (if 0 < k then
            fmtInteger true (some 6) (k : Int) ++ lit " | "
              ++ (Split de.Input '\n'.toUInt8).getD (k - 1) [] ++ lit "\n"
          else [])
      ++ (fmtInteger true (some 6) ((k : Int) + 1) ++ lit " | "
            ++ (Split de.Input '\n'.toUInt8).getD k [] ++ lit "\n")
      ++ (List.replicate (9 + (resolve de).2.toNat) ' '.toUInt8 ++ lit "^\n"), ?_⟩, ?_⟩
  · rw [hout, hline, if_neg hkey, hnn, h13]
    simp only [List.append_assoc]
  · intro h
    unfold Quote
    rw [quoteFrom_plain tab _ h]

/-- C9, witness: the key `x.y` on the example input. -/
theorem ExtError_second_line_quotes_key_witness :
    (∃ rest : GoString, ExtError emptyTab (sample 7 (lit "x.y")) = some (
      lit "toml: error: " ++ (sample 7 (lit "x.y")).Message ++ lit "\n"
      ++ (List.replicate 13 ' '.toUInt8 ++ lit "on line "
            ++ decimal ((resolve (sample 7 (lit "x.y"))).1 + 1)
            ++ lit "; last key parsed was " ++ Quote emptyTab (sample 7 (lit "x.y")).LastKey)
      ++ lit "\n" ++ rest))
    ∧ ((∀ b ∈ (sample 7 (lit "x.y")).LastKey,
          0x20 ≤ b.toNat ∧ b.toNat ≤ 0x7E ∧ b.toNat ≠ 0x22 ∧ b.toNat ≠ 0x5C) →
        Quote emptyTab (sample 7 (lit "x.y")).LastKey
          = lit "\"" ++ (sample 7 (lit "x.y")).LastKey ++ lit "\"") :=
  ExtError_second_line_quotes_key emptyTab (sample 7 (lit "x.y")) (by decide) (by decide)
    (by decide) (by decide)

/-- C10: for a record with non-empty `Input` and empty `LastKey` (and an offset
above the smallest `int`, where `ExtError` has an output), the output of
`ExtError` begins with exactly `"toml: error: " ++ Message ++ "\n"`, 13 spaces,
`"on line "`, the decimal of the resolved line index plus one, and `"\n\n"`:
nothing follows the line number and no key is mentioned. -/
theorem ExtError_header_without_key (tab : Nat → Bool) (de : DecodeError)
    (hin : de.Input ≠ []) (hlen : len de.Input < maxInt) (hpos : minInt < de.Pos)
    (hkey : de.LastKey = []) :
    ∃ rest : GoString, ExtError tab de = some (
      lit "toml: error: " ++ de.Message ++ lit "\n"
      ++ List.replicate 13 ' '.toUInt8 ++ lit "on line " ++ decimal ((resolve de).1 + 1)
      ++ lit "\n\n" ++ rest) := by
  obtain ⟨k, _, hline, _, hout⟩ := ExtError_shape tab de hin hlen hpos
  have h13 : lit "             on line " = List.replicate 13 ' '.toUInt8 ++ lit "on line " := by
    decide
  refine ⟨(if 1 < k then
            fmtInteger true (some 6) ((k : Int) - 1) ++ lit " | "
              ++ (Split de.Input '\n'.toUInt8).getD (k - 2) [] ++ lit "\n"
          else [])
      ++ (if 0 < k then
            fmtInteger true (some 6) (k : Int) ++ lit " | "
              ++ (Split de.Input '\n'.toUInt8).getD (k - 1) [] ++ lit "\n"
          else [])
      ++ (fmtInteger true (some 6) ((k : Int) + 1) ++ lit " | "
            ++ (Split de.Input '\n'.toUInt8).getD k [] ++ lit "\n")
      ++ (List.replicate (9 + (resolve de).2.toNat) ' '.toUInt8 ++ lit "^\n"), ?_⟩
  rw [hout, hline, if_pos hkey, h13]
  simp only [List.append_assoc, List.append_nil, List.nil_append]

/-- C10, witness: the example input without a key, offset 7. -/
theorem ExtError_header_without_key_witness :
    (sample 7 []).Input ≠ [] ∧ (sample 7 []).LastKey = [] ∧
    ∃ rest : GoString, ExtError emptyTab (sample 7 []) = some (
      lit "toml: error: " ++ (sample 7 []).Message ++ lit "\n"
      ++ List.replicate 13 ' '.toUInt8 ++ lit "on line "
      ++ decimal ((resolve (sample 7 [])).1 + 1)
      ++ lit "\n\n" ++ rest) :=
  ⟨by decide, by decide,
    ExtError_header_without_key emptyTab (sample 7 []) (by decide) (by decide) (by decide)
      (by decide)⟩

/-! ## The state of the walk at its `break` -/

/-- The pair `walk` returns is read off the state at the `break`: the selected
index and the clamped column; `(0, 0)` when there is no `break`. -/
theorem walk_eq_walkStop (Pos : Int) (lines : List GoString) (i pos : Int) :
    walk Pos lines i pos
      = match walkStop Pos lines i pos with
        | some (j, p) => (j, if rawCol Pos p < 0 then 0 else rawCol Pos p)
        | none => (0, 0) := by
  induction lines generalizing i pos with
  | nil => rfl
  | cons l rest ih =>
    unfold walk walkStop
    simp only
    split
    · rfl
    · exact ih _ _

theorem walkStop_char (Pos : Int) (lines : List GoString) (i pos : Int) (h0 : 0 ≤ pos)
    (hb : pos + lineStart lines lines.length ≤ maxInt) :
    (∃ k : Nat, k < lines.length ∧ Pos ≤ pos + lineStart lines (k + 1) ∧
        (∀ j : Nat, j < k → pos + lineStart lines (j + 1) < Pos) ∧
        walkStop Pos lines i pos = some (i + k, pos + lineStart lines k))
    ∨ ((∀ j : Nat, j < lines.length → pos + lineStart lines (j + 1) < Pos) ∧
        walkStop Pos lines i pos = none) := by
  induction lines generalizing i pos with
  | nil =>
    right
    simp [walkStop]
  | cons l rest ih =>
    have hl := len_nonneg l
    have hr := lineStart_nonneg rest rest.length
    rw [List.length_cons, lineStart_cons_succ] at hb
    have hll : wrapInt (len l + 1) = len l + 1 :=
      wrapInt_of_range _ (by unfold minInt; omega) (by omega)
    have hpl : wrapInt (pos + (len l + 1)) = pos + (len l + 1) :=
      wrapInt_of_range _ (by unfold minInt; omega) (by omega)
    by_cases hsel : Pos ≤ pos + (len l + 1)
    · left
      refine ⟨0, by simp, ?_, by simp, ?_⟩
      · rw [lineStart_cons_succ, lineStart_zero]
        omega
      · simp [walkStop, hll, hpl, hsel, lineStart_zero]
    · have hstep : walkStop Pos (l :: rest) i pos
          = walkStop Pos rest (i + 1) (pos + (len l + 1)) := by
        simp [walkStop, hll, hpl, hsel]
      rcases ih (i + 1) (pos + (len l + 1)) (by omega) (by omega) with
        ⟨k, hk, hge, hlt, hw⟩ | ⟨hlt, hw⟩
      · left
        refine ⟨k + 1, by simp [hk], ?_, ?_, ?_⟩
        · rw [lineStart_cons_succ]
          omega
        · intro j hj
          cases j with
          | zero =>
            rw [lineStart_cons_succ, lineStart_zero]
            omega
          | succ j =>
            rw [lineStart_cons_succ]
            have := hlt j (by omega)
            omega
        · rw [hstep, hw, lineStart_cons_succ]
          have e1 : i + 1 + (k : Int) = i + ((k + 1 : Nat) : Int) := by push_cast; omega
          have e2 : pos + (len l + 1) + lineStart rest k
              = pos + (len l + 1 + lineStart rest k) := by omega
          rw [e1, e2]
      · right
        refine ⟨?_, by rw [hstep, hw]⟩
        intro j hj
        cases j with
        | zero =>
          rw [lineStart_cons_succ, lineStart_zero]
          omega
        | succ j =>
          rw [lineStart_cons_succ]
          have := hlt j (by simpa using hj)
          omega

/-- The state at the `break` of the walk of a record, in terms of the line
starts. -/
theorem stop_char (de : DecodeError) (hlen : len de.Input < maxInt) :
    (∃ k : Nat, k < (Split de.Input '\n'.toUInt8).length ∧
        de.Pos ≤ lineStart (Split de.Input '\n'.toUInt8) (k + 1) ∧
        (∀ j : Nat, j < k → lineStart (Split de.Input '\n'.toUInt8) (j + 1) < de.Pos) ∧
        walkStop de.Pos (Split de.Input '\n'.toUInt8) 0 0
          = some ((k : Int), lineStart (Split de.Input '\n'.toUInt8) k))
    ∨ ((∀ j : Nat, j < (Split de.Input '\n'.toUInt8).length →
          lineStart (Split de.Input '\n'.toUInt8) (j + 1) < de.Pos) ∧
        walkStop de.Pos (Split de.Input '\n'.toUInt8) 0 0 = none) := by
  have hb : (0 : Int) + lineStart (Split de.Input '\n'.toUInt8)
      (Split de.Input '\n'.toUInt8).length ≤ maxInt := by
    rw [lineStart_length_Split]
    omega
  have h := walkStop_char de.Pos (Split de.Input '\n'.toUInt8) 0 0 (le_refl 0) hb
  simpa using h

/-! ## The rows of the context block -/

/-- C11, counterexample: for offset 17 on the example input the target index is
2, and the first row of the context block is `     1 | line1`, that is `lines[0]`
numbered 1, where the claim has `lines[1]` (`line2`) numbered 2. -/
theorem first_context_row_is_two_above :
    (resolve (sample 17 [])).1 = 2 ∧
    (Split threeLines '\n'.toUInt8)[2 - 1]? = some (lit "line2") ∧
    ExtError emptyTab (sample 17 []) = some (lit
      "toml: error: bad value\n             on line 3\n\n     1 | line1\n     2 | line2\n     3 | line3\n             ^\n")
    ∧ ¬ ∃ rest : GoString, ExtError emptyTab (sample 17 []) = some (
        lit "toml: error: bad value\n             on line 3\n\n"
        ++ lit "     2 | line2\n" ++ rest) := by
  refine ⟨by decide, by decide, by decide, ?_⟩
  rintro ⟨rest, h⟩
  have hout : ExtError emptyTab (sample 17 []) = some (lit
      "toml: error: bad value\n             on line 3\n\n     1 | line1\n     2 | line2\n     3 | line3\n             ^\n") := by
    decide
  rw [hout] at h
  have e := Option.some.inj h
  have hp : (lit "toml: error: bad value\n             on line 3\n\n"
        ++ lit "     2 | line2\n") <+: lit
      "toml: error: bad value\n             on line 3\n\n     1 | line1\n     2 | line2\n     3 | line3\n             ^\n" :=
    ⟨rest, e.symm⟩
  exact absurd hp (by decide)

/-- C11, amended: for a record with non-empty `Input` whose resolved target index
is greater than 1, the first row of the context block (the row after the blank
line of the header) shows `lines[targetIndex - 2]` and is numbered
`targetIndex - 1`. -/
theorem ExtError_first_context_row (tab : Nat → Bool) (de : DecodeError)
    (hin : de.Input ≠ []) (hlen : len de.Input < maxInt) (h : 1 < (resolve de).1) :
    ∃ (k : Nat) (l rest : GoString), (resolve de).1 = (k : Int) ∧
      (Split de.Input '\n'.toUInt8)[k - 2]? = some l ∧
      ExtError tab de = some (
        lit "toml: error: " ++ de.Message ++ lit "\n"
        ++ lit "             on line " ++ decimal ((k : Int) + 1)
        ++ (if de.LastKey = [] then [] else lit "; last key parsed was " ++ Quote tab de.LastKey)
        ++ lit "\n\n"
        ++ (List.replicate (max 1 (6 - (decimal ((k : Int) - 1)).length)) ' '.toUInt8
              ++ decimal ((k : Int) - 1) ++ lit " | " ++ l ++ lit "\n")
        ++ rest) := by
  have hmin : minInt < de.Pos := by
    have := pos_of_line_pos de hlen (by omega)
    unfold minInt
    omega
  obtain ⟨k, hk, hline, _, hout⟩ := ExtError_shape tab de hin hlen hmin
  rw [hline] at h
  have h1 : 1 < k := by omega
  have h0 : 0 < k := by omega
  have hl : (Split de.Input '\n'.toUInt8)[k - 2]?
      = some ((Split de.Input '\n'.toUInt8).getD (k - 2) []) := by
    have hjl : k - 2 < (Split de.Input '\n'.toUInt8).length := by omega
    simp [List.getD, List.getElem?_eq_getElem hjl]
  refine ⟨k, _, (fmtInteger true (some 6) (k : Int) ++ lit " | "
        ++ (Split de.Input '\n'.toUInt8).getD (k - 1) [] ++ lit "\n")
      ++ (fmtInteger true (some 6) ((k : Int) + 1) ++ lit " | "
            ++ (Split de.Input '\n'.toUInt8).getD k [] ++ lit "\n")
      ++ (List.replicate (9 + (resolve de).2.toNat) ' '.toUInt8 ++ lit "^\n"), hline, hl, ?_⟩
  rw [hout, if_pos h1, if_pos h0, fmtInteger_field ((k : Int) - 1) (by omega)]
  simp only [List.append_assoc]

/-- C11, witness: offset 17 on the example input, target index 2. -/
theorem ExtError_first_context_row_witness :
    1 < (resolve (sample 17 [])).1 ∧
    ∃ (k : Nat) (l rest : GoString), (resolve (sample 17 [])).1 = (k : Int) ∧
      (Split (sample 17 []).Input '\n'.toUInt8)[k - 2]? = some l ∧
      ExtError emptyTab (sample 17 []) = some (
        lit "toml: error: " ++ (sample 17 []).Message ++ lit "\n"
        ++ lit "             on line " ++ decimal ((k : Int) + 1)
        ++ (if (sample 17 []).LastKey = [] then []
            else lit "; last key parsed was " ++ Quote emptyTab (sample 17 []).LastKey)
        ++ lit "\n\n"
        ++ (List.replicate (max 1 (6 - (decimal ((k : Int) - 1)).length)) ' '.toUInt8
              ++ decimal ((k : Int) - 1) ++ lit " | " ++ l ++ lit "\n")
        ++ rest) :=
  ⟨by decide, ExtError_first_context_row emptyTab (sample 17 []) (by decide) (by decide)
    (by decide)⟩

/-- C12, counterexample: for offset 7 on the example input the target index is
1, and the row before the target row is `     1 | line1`, that is `lines[0]`
numbered 1, where the claim has `lines[1]` (`line2`) numbered 2. -/
theorem row_before_target_is_one_above :
    (resolve (sample 7 [])).1 = 1 ∧
    (Split threeLines '\n'.toUInt8)[1]? = some (lit "line2") ∧
    ExtError emptyTab (sample 7 []) = some (lit
      "toml: error: bad value\n             on line 2\n\n     1 | line1\n     2 | line2\n         ^\n")
    ∧ ¬ ∃ pre : GoString, ExtError emptyTab (sample 7 []) = some (
        pre ++ lit "     2 | line2\n" ++ lit "     2 | line2\n" ++ lit "         ^\n") := by
  refine ⟨by decide, by decide, by decide, ?_⟩
  rintro ⟨pre, h⟩
  have hout : ExtError emptyTab (sample 7 []) = some (lit
      "toml: error: bad value\n             on line 2\n\n     1 | line1\n     2 | line2\n         ^\n") := by
    decide
  rw [hout] at h
  have e := Option.some.inj h
  have hs : (lit "     2 | line2\n" ++ lit "     2 | line2\n" ++ lit "         ^\n") <:+ lit
      "toml: error: bad value\n             on line 2\n\n     1 | line1\n     2 | line2\n         ^\n" :=
    ⟨pre, by rw [e]; simp only [List.append_assoc]⟩
  exact absurd hs (by decide)

/-- C12, amended: for a record with non-empty `Input` whose resolved target index
is greater than 0, the context row emitted immediately before the target row
shows `lines[targetIndex - 1]` and is numbered `targetIndex`. -/
theorem ExtError_row_before_target (tab : Nat → Bool) (de : DecodeError)
    (hin : de.Input ≠ []) (hlen : len de.Input < maxInt) (h : 0 < (resolve de).1) :
    ∃ (k : Nat) (l t pre : GoString), (resolve de).1 = (k : Int) ∧
      (Split de.Input '\n'.toUInt8)[k - 1]? = some l ∧
      (Split de.Input '\n'.toUInt8)[k]? = some t ∧
      ExtError tab de = some (
        pre ++ lit "\n"
        ++ (List.replicate (max 1 (6 - (decimal (k : Int)).length)) ' '.toUInt8
              ++ decimal (k : Int) ++ lit " | " ++ l ++ lit "\n")
        ++ (List.replicate (max 1 (6 - (decimal ((k : Int) + 1)).length)) ' '.toUInt8
              ++ decimal ((k : Int) + 1) ++ lit " | " ++ t ++ lit "\n")
        ++ (List.replicate (9 + (resolve de).2.toNat) ' '.toUInt8 ++ lit "^\n")) := by
  have hmin : minInt < de.Pos := by
    have := pos_of_line_pos de hlen h
    unfold minInt
    omega
  obtain ⟨k, hk, hline, _, hout⟩ := ExtError_shape tab de hin hlen hmin
  rw [hline] at h
  have h0 : 0 < k := by omega
  have hget : ∀ j : Nat, j ≤ k →
      (Split de.Input '\n'.toUInt8)[j]? = some ((Split de.Input '\n'.toUInt8).getD j []) := by
    intro j hj
    have hjl : j < (Split de.Input '\n'.toUInt8).length := by omega
    simp [List.getD, List.getElem?_eq_getElem hjl]
  have hnn : lit "\n\n" = lit "\n" ++ lit "\n" := rfl
  by_cases h1 : 1 < k
  · refine ⟨k, _, _, lit "toml: error: " ++ de.Message ++ lit "\n"
        ++ lit "             on line " ++ decimal ((k : Int) + 1)
        ++ (if de.LastKey = [] then [] else lit "; last key parsed was " ++ Quote tab de.LastKey)
        ++ lit "\n\n"
        ++ (fmtInteger true (some 6) ((k : Int) - 1) ++ lit " | "
              ++ (Split de.Input '\n'.toUInt8).getD (k - 2) []),
      hline, hget (k - 1) (by omega), hget k (le_refl _), ?_⟩
    rw [hout, if_pos h1, if_pos h0, fmtInteger_field (k : Int) (by omega),
      fmtInteger_field ((k : Int) + 1) (by omega)]
    simp only [List.append_assoc]
  · refine ⟨k, _, _, lit "toml: error: " ++ de.Message ++ lit "\n"
        ++ lit "             on line " ++ decimal ((k : Int) + 1)
        ++ (if de.LastKey = [] then [] else lit "; last key parsed was " ++ Quote tab de.LastKey)
        ++ lit "\n",
      hline, hget (k - 1) (by omega), hget k (le_refl _), ?_⟩
    rw [hout, if_neg h1, if_pos h0, fmtInteger_field (k : Int) (by omega),
      fmtInteger_field ((k : Int) + 1) (by omega), hnn]
    simp only [List.append_assoc, List.append_nil, List.nil_append]

/-- C12, witness: offset 7 on the example input, target index 1. -/
theorem ExtError_row_before_target_witness :
    0 < (resolve (sample 7 [])).1 ∧
    ∃ (k : Nat) (l t pre : GoString), (resolve (sample 7 [])).1 = (k : Int) ∧
      (Split (sample 7 []).Input '\n'.toUInt8)[k - 1]? = some l ∧
      (Split (sample 7 []).Input '\n'.toUInt8)[k]? = some t ∧
      ExtError emptyTab (sample 7 []) = some (
        pre ++ lit "\n"
        ++ (List.replicate (max 1 (6 - (decimal (k : Int)).length)) ' '.toUInt8
              ++ decimal (k : Int) ++ lit " | " ++ l ++ lit "\n")
        ++ (List.replicate (max 1 (6 - (decimal ((k : Int) + 1)).length)) ' '.toUInt8
              ++ decimal ((k : Int) + 1) ++ lit " | " ++ t ++ lit "\n")
        ++ (List.replicate (9 + (resolve (sample 7 [])).2.toNat) ' '.toUInt8 ++ lit "^\n")) :=
  ⟨by decide, ExtError_row_before_target emptyTab (sample 7 []) (by decide) (by decide)
    (by decide)⟩

/-- C13: for a record with non-empty `Input` (and an offset above the smallest
`int`, where `ExtError` has an output), the row immediately before the caret line
is the target row: its content is exactly `lines[targetIndex]` and its number is
`targetIndex + 1`, the number the header prints after `on line `. -/
theorem ExtError_target_row_before_caret (tab : Nat → Bool) (de : DecodeError)
    (hin : de.Input ≠ []) (hlen : len de.Input < maxInt) (hpos : minInt < de.Pos) :
    ∃ (k : Nat) (l mid : GoString), (resolve de).1 = (k : Int) ∧
      (Split de.Input '\n'.toUInt8)[k]? = some l ∧
      ExtError tab de = some (
        lit "toml: error: " ++ de.Message ++ lit "\n"
        ++ lit "             on line " ++ decimal ((k : Int) + 1)
        ++ (if de.LastKey = [] then [] else lit "; last key parsed was " ++ Quote tab de.LastKey)
        ++ lit "\n" ++ mid ++ lit "\n"
        ++ (List.replicate (max 1 (6 - (decimal ((k : Int) + 1)).length)) ' '.toUInt8
              ++ decimal ((k : Int) + 1) ++ lit " | " ++ l ++ lit "\n")
        ++ (List.replicate (9 + (resolve de).2.toNat) ' '.toUInt8 ++ lit "^\n")) := by
  obtain ⟨k, hk, hline, _, hout⟩ := ExtError_shape tab de hin hlen hpos
  have hl : (Split de.Input '\n'.toUInt8)[k]?
      = some ((Split de.Input '\n'.toUInt8).getD k []) := by
    simp [List.getD, List.getElem?_eq_getElem hk]
  have hnn : lit "\n\n" = lit "\n" ++ lit "\n" := rfl
  by_cases h0 : 0 < k
  · refine ⟨k, _, lit "\n"
        ++ (if 1 < k then
              fmtInteger true (some 6) ((k : Int) - 1) ++ lit " | "
                ++ (Split de.Input '\n'.toUInt8).getD (k - 2) [] ++ lit "\n"
            else [])
        ++ (fmtInteger true (some 6) (k : Int) ++ lit " | "
              ++ (Split de.Input '\n'.toUInt8).getD (k - 1) []), hline, hl, ?_⟩
    rw [hout, if_pos h0, fmtInteger_field ((k : Int) + 1) (by omega), hnn]
    simp only [List.append_assoc]
  · have h1 : ¬ 1 < k := by omega
    refine ⟨k, _, [], hline, hl, ?_⟩
    rw [hout, if_neg h0, if_neg h1, fmtInteger_field ((k : Int) + 1) (by omega), hnn]
    simp only [List.append_assoc, List.append_nil, List.nil_append]

/-- C13, witness: offset 17 on the example input. -/
theorem ExtError_target_row_before_caret_witness :
    (sample 17 []).Input ≠ [] ∧
    ∃ (k : Nat) (l mid : GoString), (resolve (sample 17 [])).1 = (k : Int) ∧
      (Split (sample 17 []).Input '\n'.toUInt8)[k]? = some l ∧
      ExtError emptyTab (sample 17 []) = some (
        lit "toml: error: " ++ (sample 17 []).Message ++ lit "\n"
        ++ lit "             on line " ++ decimal ((k : Int) + 1)
        ++ (if (sample 17 []).LastKey = [] then []
            else lit "; last key parsed was " ++ Quote emptyTab (sample 17 []).LastKey)
        ++ lit "\n" ++ mid ++ lit "\n"
        ++ (List.replicate (max 1 (6 - (decimal ((k : Int) + 1)).length)) ' '.toUInt8
              ++ decimal ((k : Int) + 1) ++ lit " | " ++ l ++ lit "\n")
        ++ (List.replicate (9 + (resolve (sample 17 [])).2.toNat) ' '.toUInt8 ++ lit "^\n")) :=
  ⟨by decide, ExtError_target_row_before_caret emptyTab (sample 17 []) (by decide) (by decide)
    (by decide)⟩

/-- C14: two records with non-empty `Input` that agree on `Message`, `Pos`,
`LastKey` and `Input` get the same result from `ExtError`, whatever their `Line`
fields are; for an offset above the smallest `int` that result is a string. -/
theorem ExtError_ignores_Line (tab : Nat → Bool) (de1 de2 : DecodeError)
    (hin : de1.Input ≠ []) (hlen : len de1.Input < maxInt)
    (hm : de1.Message = de2.Message) (hp : de1.Pos = de2.Pos)
    (hk : de1.LastKey = de2.LastKey) (hi : de1.Input = de2.Input) :
    ExtError tab de1 = ExtError tab de2 ∧
    (minInt < de1.Pos →
      ∃ out : GoString, ExtError tab de1 = some out ∧ ExtError tab de2 = some out) := by
  have heq : ExtError tab de1 = ExtError tab de2 := by
    obtain ⟨m1, l1, p1, k1, i1⟩ := de1
    obtain ⟨m2, l2, p2, k2, i2⟩ := de2
    simp only at hm hp hk hi hin
    subst hm hp hk hi
    unfold ExtError
    rw [if_neg hin, if_neg hin]
    rfl
  refine ⟨heq, fun hpos => ?_⟩
  obtain ⟨_, _, _, _, hout⟩ := ExtError_shape tab de1 hin hlen hpos
  exact ⟨_, hout, by rw [← heq]; exact hout⟩

/-- C14, witness: the example record with `Line` 5 and with `Line` 77. -/
theorem ExtError_ignores_Line_witness :
    (sample 7 []).Line ≠ 77 ∧
    ExtError emptyTab (sample 7 []) = ExtError emptyTab { sample 7 [] with Line := 77 } ∧
    ∃ out : GoString, ExtError emptyTab (sample 7 []) = some out ∧
      ExtError emptyTab { sample 7 [] with Line := 77 } = some out :=
  ⟨by decide,
    (ExtError_ignores_Line emptyTab (sample 7 []) { sample 7 [] with Line := 77 }
      (by decide) (by decide) rfl rfl rfl rfl).1,
    (ExtError_ignores_Line emptyTab (sample 7 []) { sample 7 [] with Line := 77 }
      (by decide) (by decide) rfl rfl rfl rfl).2 (by decide)⟩

/-! ## The column and the selected line -/

/-- C15, counterexample: for the offset 0 the walk stops on line 0 with the cursor
at 0, `Pos - pos - 1` is -1, and the branch `col < 0` sets the column to 0. -/
theorem offset_zero_takes_the_clamp :
    (0 : Int) ≤ (sample 0 []).Pos ∧
    walkStop (sample 0 []).Pos (Split (sample 0 []).Input '\n'.toUInt8) 0 0 = some (0, 0) ∧
    rawCol (sample 0 []).Pos 0 = -1 ∧
    (resolve (sample 0 [])).2 = 0 := by
  decide

/-- C15, amended: for a record with non-empty `Input` and offset `Pos ≥ 1`, the
value `Pos - pos - 1` computed for the line selected by the walk is never
negative (and does not overflow), so the branch that clamps `col` to 0 is not
taken: the column is that value. -/
theorem rawCol_nonneg (de : DecodeError) (_hin : de.Input ≠ [])
    (hlen : len de.Input < maxInt) (hpos : 1 ≤ de.Pos) :
    ∀ i pos : Int, walkStop de.Pos (Split de.Input '\n'.toUInt8) 0 0 = some (i, pos) →
      0 ≤ rawCol de.Pos pos ∧ rawCol de.Pos pos = de.Pos - pos - 1 ∧
      (resolve de).2 = rawCol de.Pos pos := by
  intro i pos hstop
  have hres : resolve de = (i, if rawCol de.Pos pos < 0 then 0 else rawCol de.Pos pos) := by
    unfold resolve
    rw [walk_eq_walkStop, hstop]
  have hb := lineStart_length_Split de.Input '\n'.toUInt8
  rcases stop_char de hlen with ⟨k, hk, hge, hlt, hw⟩ | ⟨_, hw⟩
  · rw [hw] at hstop
    have hpe : lineStart (Split de.Input '\n'.toUInt8) k = pos := by
      have := Option.some.inj hstop
      exact (Prod.mk.inj this).2
    have hm := lineStart_mono (Split de.Input '\n'.toUInt8) (k + 1)
      (Split de.Input '\n'.toUInt8).length (by omega)
    have h0 := lineStart_nonneg (Split de.Input '\n'.toUInt8) k
    have hlt' : pos = 0 ∨ pos < de.Pos := by
      cases k with
      | zero =>
        left
        rw [← hpe]
        exact lineStart_zero _
      | succ k =>
        right
        rw [← hpe]
        exact hlt k (by omega)
    have hraw : rawCol de.Pos pos = de.Pos - pos - 1 := by
      unfold rawCol wrapInt
      unfold maxInt at hlen
      omega
    refine ⟨by omega, hraw, ?_⟩
    rw [hres]
    simp only
    rw [if_neg (by omega)]
  · rw [hw] at hstop
    cases hstop

/-- C15, witness: offset 7 on the example input; the walk stops on line 1 with
the cursor at 6. -/
theorem rawCol_nonneg_witness :
    walkStop (sample 7 []).Pos (Split (sample 7 []).Input '\n'.toUInt8) 0 0 = some (1, 6) ∧
    0 ≤ rawCol (sample 7 []).Pos 6 ∧ rawCol (sample 7 []).Pos 6 = (sample 7 []).Pos - 6 - 1 ∧
      (resolve (sample 7 [])).2 = rawCol (sample 7 []).Pos 6 :=
  ⟨by decide, rawCol_nonneg (sample 7 []) (by decide) (by decide) (by decide) 1 6 (by decide)⟩

/-- C16: for a non-empty input and an offset with `1 ≤ Pos ≤ len(Input) + 1`, the
resolved pair satisfies `start(targetIndex) + col = Pos - 1`: the caret marks the
input byte at index `Pos - 1`. -/
theorem resolve_marks_byte_before_offset (de : DecodeError) (_hin : de.Input ≠ [])
    (hlen : len de.Input < maxInt) (h1 : 1 ≤ de.Pos) (h2 : de.Pos ≤ len de.Input + 1) :
    ∃ k : Nat, k < (Split de.Input '\n'.toUInt8).length ∧ (resolve de).1 = (k : Int) ∧
      lineStart (Split de.Input '\n'.toUInt8) k + (resolve de).2 = de.Pos - 1 := by
  have hb := lineStart_length_Split de.Input '\n'.toUInt8
  rcases resolve_char de hlen with ⟨k, hk, hge, hlt, hr⟩ | ⟨hlt, _⟩
  · refine ⟨k, hk, by rw [hr], ?_⟩
    have h0 := lineStart_nonneg (Split de.Input '\n'.toUInt8) k
    have hlt' : lineStart (Split de.Input '\n'.toUInt8) k = 0
        ∨ lineStart (Split de.Input '\n'.toUInt8) k < de.Pos := by
      cases k with
      | zero =>
        left
        exact lineStart_zero _
      | succ k =>
        right
        exact hlt k (by omega)
    rw [hr]
    simp only
    rw [colAt_eq _ _ (by unfold minInt; omega) (by omega) h0 hlt']
    omega
  · have hpos := List.length_pos.mpr (Split_ne_nil de.Input '\n'.toUInt8)
    have := hlt ((Split de.Input '\n'.toUInt8).length - 1) (by omega)
    rw [Nat.sub_add_cancel hpos, hb] at this
    omega

/-- C16, witness: offset 17 on the example input: line 2 begins at 12, column 4. -/
theorem resolve_marks_byte_before_offset_witness :
    lineStart (Split (sample 17 []).Input '\n'.toUInt8) 2 = 12 ∧
    (resolve (sample 17 [])).2 = 4 ∧
    ∃ k : Nat, k < (Split (sample 17 []).Input '\n'.toUInt8).length ∧
      (resolve (sample 17 [])).1 = (k : Int) ∧
      lineStart (Split (sample 17 []).Input '\n'.toUInt8) k + (resolve (sample 17 [])).2
        = (sample 17 []).Pos - 1 :=
  ⟨by decide, by decide,
    resolve_marks_byte_before_offset (sample 17 []) (by decide) (by decide) (by decide)
      (by decide)⟩

/-- C17: for a non-empty input, the values `len(lines[i]) + 1` of the split sum
to `len(Input) + 1`, the walk takes its `break` if and only if
`Pos ≤ len(Input) + 1`, and it runs to its end, leaving line 0 and column 0,
exactly when `Pos > len(Input) + 1`. -/
theorem walk_selects_iff (de : DecodeError) (_hin : de.Input ≠ [])
    (hlen : len de.Input < maxInt) :
    lineStart (Split de.Input '\n'.toUInt8) (Split de.Input '\n'.toUInt8).length
      = len de.Input + 1 ∧
    ((∃ i pos : Int, walkStop de.Pos (Split de.Input '\n'.toUInt8) 0 0 = some (i, pos))
      ↔ de.Pos ≤ len de.Input + 1) ∧
    (walkStop de.Pos (Split de.Input '\n'.toUInt8) 0 0 = none ↔ len de.Input + 1 < de.Pos) ∧
    (len de.Input + 1 < de.Pos → resolve de = (0, 0)) := by
  have hb := lineStart_length_Split de.Input '\n'.toUInt8
  have hpos := List.length_pos.mpr (Split_ne_nil de.Input '\n'.toUInt8)
  have hcase : (de.Pos ≤ len de.Input + 1 ∧
        ∃ i pos : Int, walkStop de.Pos (Split de.Input '\n'.toUInt8) 0 0 = some (i, pos))
      ∨ (len de.Input + 1 < de.Pos ∧
        walkStop de.Pos (Split de.Input '\n'.toUInt8) 0 0 = none) := by
    rcases stop_char de hlen with ⟨k, hk, hge, _, hw⟩ | ⟨hlt, hw⟩
    · left
      have hm := lineStart_mono (Split de.Input '\n'.toUInt8) (k + 1)
        (Split de.Input '\n'.toUInt8).length (by omega)
      exact ⟨by omega, _, _, hw⟩
    · right
      have := hlt ((Split de.Input '\n'.toUInt8).length - 1) (by omega)
      rw [Nat.sub_add_cancel hpos, hb] at this
      exact ⟨this, hw⟩
  refine ⟨hb, ?_, ?_, ?_⟩
  · rcases hcase with ⟨h, hw⟩ | ⟨h, hw⟩
    · exact ⟨fun _ => h, fun _ => hw⟩
    · constructor
      · rintro ⟨i, pos, hs⟩
        rw [hw] at hs
        cases hs
      · intro h'
        omega
  · rcases hcase with ⟨h, i, pos, hw⟩ | ⟨h, hw⟩
    · constructor
      · intro hs
        rw [hw] at hs
        cases hs
      · intro h'
        omega
    · exact ⟨fun _ => h, fun _ => hw⟩
  · intro h
    rcases hcase with ⟨h', _⟩ | ⟨_, hw⟩
    · omega
    · unfold resolve
      rw [walk_eq_walkStop, hw]

/-- C17, witness: on the 18 bytes of the example input, offset 19 is selected and
offset 20 is not. -/
theorem walk_selects_iff_witness :
    walkStop 19 (Split threeLines '\n'.toUInt8) 0 0 = some (3, 18) ∧
    walkStop 20 (Split threeLines '\n'.toUInt8) 0 0 = none ∧
    (walkStop (sample 20 []).Pos (Split (sample 20 []).Input '\n'.toUInt8) 0 0 = none
      ↔ len (sample 20 []).Input + 1 < (sample 20 []).Pos) :=
  ⟨by decide, by decide,
    (walk_selects_iff (sample 20 []) (by decide) (by decide)).2.2.1⟩

/-- C19, the failing input: with `Pos` the smallest `int`, the target line is
`lines[0] = "a"`, of length 1, and the column is the largest `int`. -/
theorem col_exceeds_line_at_minInt :
    (resolve ⟨lit "m", 1, minInt, [], lit "a"⟩).1 = 0 ∧
    (Split (lit "a") '\n'.toUInt8)[0]? = some (lit "a") ∧
    len (lit "a") = 1 ∧
    len (lit "a") < (resolve ⟨lit "m", 1, minInt, [], lit "a"⟩).2 := by
  decide

/-- For every record whose `Pos` is above the smallest `int`, the resolved column
satisfies `0 ≤ col ≤ len(lines[targetIndex])`: the caret is at most one column
past the last byte of the target line. -/
theorem col_le_line_length (de : DecodeError) (hlen : len de.Input < maxInt)
    (hpos : minInt < de.Pos) :
    ∃ (k : Nat) (l : GoString), (resolve de).1 = (k : Int) ∧
      (Split de.Input '\n'.toUInt8)[k]? = some l ∧
      0 ≤ (resolve de).2 ∧ (resolve de).2 ≤ len l := by
  have hb := lineStart_length_Split de.Input '\n'.toUInt8
  rcases resolve_char de hlen with ⟨k, hk, hge, hlt, hr⟩ | ⟨_, hr⟩
  · have hl : (Split de.Input '\n'.toUInt8)[k]?
        = some ((Split de.Input '\n'.toUInt8).getD k []) := by
      simp [List.getD, List.getElem?_eq_getElem hk]
    have hs := lineStart_succ _ k _ hl
    have hm := lineStart_mono (Split de.Input '\n'.toUInt8) (k + 1)
      (Split de.Input '\n'.toUInt8).length (by omega)
    have h0 := lineStart_nonneg (Split de.Input '\n'.toUInt8) k
    have hlen0 := len_nonneg ((Split de.Input '\n'.toUInt8).getD k [])
    have hlt' : lineStart (Split de.Input '\n'.toUInt8) k = 0
        ∨ lineStart (Split de.Input '\n'.toUInt8) k < de.Pos := by
      cases k with
      | zero =>
        left
        exact lineStart_zero _
      | succ k =>
        right
        exact hlt k (by omega)
    refine ⟨k, _, by rw [hr], hl, ?_, ?_⟩
    · rw [hr]
      exact colAt_nonneg _ _
    · rw [hr]
      simp only
      rw [colAt_eq _ _ hpos (by omega) h0 hlt']
      omega
  · have hpos0 := List.length_pos.mpr (Split_ne_nil de.Input '\n'.toUInt8)
    have hl : (Split de.Input '\n'.toUInt8)[0]?
        = some ((Split de.Input '\n'.toUInt8).getD 0 []) := by
      simp [List.getD, List.getElem?_eq_getElem hpos0]
    refine ⟨0, _, by rw [hr]; rfl, hl, by rw [hr], ?_⟩
    rw [hr]
    exact len_nonneg _

/-- The column stays on the target line for a negative offset on the example
input. -/
theorem col_le_line_length_witness :
    minInt < (sample (-3) []).Pos ∧
    ∃ (k : Nat) (l : GoString), (resolve (sample (-3) [])).1 = (k : Int) ∧
      (Split (sample (-3) []).Input '\n'.toUInt8)[k]? = some l ∧
      0 ≤ (resolve (sample (-3) [])).2 ∧ (resolve (sample (-3) [])).2 ≤ len l :=
  ⟨by decide, col_le_line_length (sample (-3) []) (by decide) (by decide)⟩

/-- C20: for a non-empty input and two offsets `p1 ≤ p2 ≤ len(Input) + 1`, the
target index resolved for `p1` is at most the one resolved for `p2`. -/
theorem resolve_line_monotone (de1 de2 : DecodeError) (_hin : de1.Input ≠ [])
    (hlen : len de1.Input < maxInt) (hi : de1.Input = de2.Input)
    (h12 : de1.Pos ≤ de2.Pos) (h2 : de2.Pos ≤ len de1.Input + 1) :
    (resolve de1).1 ≤ (resolve de2).1 := by
  have hb := lineStart_length_Split de1.Input '\n'.toUInt8
  have hpos := List.length_pos.mpr (Split_ne_nil de1.Input '\n'.toUInt8)
  have hlen2 : len de2.Input < maxInt := by rw [← hi]; exact hlen
  rcases resolve_char de2 hlen2 with ⟨k2, hk2, hge2, _, hr2⟩ | ⟨hlt2, _⟩
  · rw [← hi] at hk2 hge2
    rcases resolve_char de1 hlen with ⟨k1, _, _, hlt1, hr1⟩ | ⟨_, hr1⟩
    · rw [hr1, hr2]
      simp only
      rcases Nat.lt_or_ge k2 k1 with h | h
      · have := hlt1 k2 h
        omega
      · exact_mod_cast h
    · rw [hr1, hr2]
      simp only
      omega
  · rw [← hi] at hlt2
    have := hlt2 ((Split de1.Input '\n'.toUInt8).length - 1) (by omega)
    rw [Nat.sub_add_cancel hpos, hb] at this
    omega

/-- C20, witness: offsets 6 and 7 on the example input resolve to lines 0 and 1. -/
theorem resolve_line_monotone_witness :
    (resolve (sample 6 [])).1 = 0 ∧ (resolve (sample 7 [])).1 = 1 ∧
    (resolve (sample 6 [])).1 ≤ (resolve (sample 7 [])).1 :=
  ⟨by decide, by decide,
    resolve_line_monotone (sample 6 []) (sample 7 []) (by decide) (by decide) rfl (by decide)
      (by decide)⟩

/-- C18: for a record with non-empty `Input` (and an offset above the smallest
`int`, where `ExtError` has an output), the source rows of the output of
`ExtError` are the `min(targetIndex, 2) + 1` consecutive lines of the split that
end with the target line, each labelled with its 1-based position in the split:
row `j` shows `lines[targetIndex - min(targetIndex, 2) + j]` numbered
`targetIndex - min(targetIndex, 2) + j + 1`. -/
theorem ExtError_rows_numbered (tab : Nat → Bool) (de : DecodeError) (hin : de.Input ≠ [])
    (hlen : len de.Input < maxInt) (hpos : minInt < de.Pos) :
    ∃ k : Nat, (resolve de).1 = (k : Int) ∧ k < (Split de.Input '\n'.toUInt8).length ∧
      ExtError tab de = some (
        (lit "toml: error: " ++ de.Message ++ lit "\n"
          ++ lit "             on line " ++ decimal ((k : Int) + 1)
          ++ (if de.LastKey = [] then []
              else lit "; last key parsed was " ++ Quote tab de.LastKey)
          ++ lit "\n\n")
        ++ ((List.range (min k 2 + 1)).map (fun j =>
              List.replicate
                  (max 1 (6 - (decimal (((k - min k 2 + j : Nat) : Int) + 1)).length))
                  ' '.toUInt8
                ++ decimal (((k - min k 2 + j : Nat) : Int) + 1) ++ lit " | "
                ++ (Split de.Input '\n'.toUInt8).getD (k - min k 2 + j) []
                ++ lit "\n")).flatten
        ++ (List.replicate (9 + (resolve de).2.toNat) ' '.toUInt8 ++ lit "^\n")) := by
  obtain ⟨k, hk, hline, _, hout⟩ := ExtError_shape tab de hin hlen hpos
  refine ⟨k, hline, hk, ?_⟩
  rw [hout]
  have r1 : List.range 1 = [0] := rfl
  have r2 : List.range 2 = [0, 1] := rfl
  have r3 : List.range 3 = [0, 1, 2] := rfl
  by_cases h1 : 1 < k
  · have h0 : 0 < k := by omega
    have m2 : min k 2 = 2 := by omega
    have i1 : k - 2 + 1 = k - 1 := by omega
    have i2 : k - 2 + 2 = k := by omega
    have c0 : ((k - 2 : Nat) : Int) + 1 = (k : Int) - 1 := by omega
    have c1 : ((k - 1 : Nat) : Int) + 1 = (k : Int) := by omega
    rw [if_pos h1, if_pos h0, fmtInteger_field ((k : Int) - 1) (by omega),
      fmtInteger_field (k : Int) (by omega), fmtInteger_field ((k : Int) + 1) (by omega)]
    simp only [m2, r3, List.map_cons, List.map_nil, List.flatten_cons, List.flatten_nil,
      Nat.add_zero, i1, i2, c0, c1, List.append_assoc, List.append_nil]
  · by_cases h0 : 0 < k
    · have hk1 : k = 1 := by omega
      subst hk1
      have m2 : min 1 2 = 1 := rfl
      have i0 : 1 - 1 + 0 = 1 - 1 := rfl
      have i1 : 1 - 1 + 1 = 1 := rfl
      have c0 : ((1 - 1 : Nat) : Int) + 1 = ((1 : Nat) : Int) := rfl
      rw [if_neg h1, if_pos h0, fmtInteger_field ((1 : Nat) : Int) (by omega),
        fmtInteger_field (((1 : Nat) : Int) + 1) (by omega)]
      simp only [m2, r2, List.map_cons, List.map_nil, List.flatten_cons, List.flatten_nil,
        i0, i1, c0, List.append_assoc, List.append_nil]
    · have hk0 : k = 0 := by omega
      subst hk0
      have m2 : min 0 2 = 0 := rfl
      have i0 : 0 - 0 + 0 = 0 := rfl
      rw [if_neg h1, if_neg h0, fmtInteger_field (((0 : Nat) : Int) + 1) (by omega)]
      simp only [m2, r1, List.map_cons, List.map_nil, List.flatten_cons, List.flatten_nil,
        i0, List.append_assoc, List.append_nil]

/-- C18, witness: offset 17 on the example input: three rows, numbered 1 to 3. -/
theorem ExtError_rows_numbered_witness :
    (resolve (sample 17 [])).1 = 2 ∧
    ∃ k : Nat, (resolve (sample 17 [])).1 = (k : Int) ∧
      k < (Split (sample 17 []).Input '\n'.toUInt8).length ∧
      ExtError emptyTab (sample 17 []) = some (
        (lit "toml: error: " ++ (sample 17 []).Message ++ lit "\n"
          ++ lit "             on line " ++ decimal ((k : Int) + 1)
          ++ (if (sample 17 []).LastKey = [] then []
              else lit "; last key parsed was " ++ Quote emptyTab (sample 17 []).LastKey)
          ++ lit "\n\n")
        ++ ((List.range (min k 2 + 1)).map (fun j =>
              List.replicate
                  (max 1 (6 - (decimal (((k - min k 2 + j : Nat) : Int) + 1)).length))
                  ' '.toUInt8
                ++ decimal (((k - min k 2 + j : Nat) : Int) + 1) ++ lit " | "
                ++ (Split (sample 17 []).Input '\n'.toUInt8).getD (k - min k 2 + j) []
                ++ lit "\n")).flatten
        ++ (List.replicate (9 + (resolve (sample 17 [])).2.toNat) ' '.toUInt8 ++ lit "^\n")) :=
  ⟨by decide, ExtError_rows_numbered emptyTab (sample 17 []) (by decide) (by decide)
    (by decide)⟩

/-! ## The offset at which `ExtError` panics -/

theorem resolve_at_smallest (de : DecodeError) (hpos : de.Pos = minInt) :
    resolve de = (0, maxInt) := by
  unfold resolve
  rw [hpos]
  cases hs : Split de.Input '\n'.toUInt8 with
  | nil => exact absurd hs (Split_ne_nil _ _)
  | cons l rest =>
    unfold walk
    have hge : wrapInt (0 + wrapInt (len l + 1)) ≥ minInt := wrapInt_ge _
    have hcol : wrapInt (wrapInt (minInt - 0) - 1) = maxInt := by decide
    have hneg : ¬ maxInt < 0 := by decide
    simp only [hge, if_true, hcol, if_neg hneg]

/-- With non-empty `Input` and `Pos` the smallest `int`, `ExtError` returns
nothing: the repeat count is the largest `int` and `strings.Repeat` panics. -/
theorem ExtError_panics_at_smallest (tab : Nat → Bool) (de : DecodeError)
    (hin : de.Input ≠ []) (hpos : de.Pos = minInt) :
    ExtError tab de = none := by
  have hres := resolve_at_smallest de hpos
  have hline : (resolve de).1 = 0 := by rw [hres]
  have hcol : (resolve de).2 = maxInt := by rw [hres]
  have hrep : Repeat (lit " ") maxInt = none := by decide
  have hw1 : wrapInt (0 + 1) = 1 := by decide
  have h1 : ¬ ((0 : Int) > 1) := by decide
  have h0 : ¬ ((0 : Int) > 0) := by decide
  have hpos0 := List.length_pos.mpr (Split_ne_nil de.Input '\n'.toUInt8)
  have hi0 : index (Split de.Input '\n'.toUInt8) 0
      = some ((Split de.Input '\n'.toUInt8).getD 0 []) := by
    have := index_natCast (Split de.Input '\n'.toUInt8) 0
    simp only [Nat.cast_zero] at this
    rw [this]
    simp [List.getD, List.getElem?_eq_getElem hpos0]
  unfold ExtError
  rw [if_neg hin]
  simp only [hline, hcol, hw1, h1, h0, hi0, hrep, Fprintf_message, Fprintf_on_line,
    Fprintf_row, Option.some_bind, Option.bind_eq_bind, Option.pure_def, WriteString,
    if_false, Option.none_bind]
  by_cases hkey : de.LastKey = []
  · simp [hkey]
  · simp [hkey, Fprintf_last_key]

/-- `ExtError` returns nothing on the record of the failing input of C6, whatever
the table. -/
theorem ExtError_panics_at_smallest_witness :
    (⟨lit "m", 1, minInt, [], lit "a"⟩ : DecodeError).Input ≠ [] ∧
    ExtError (fun _ => true) ⟨lit "m", 1, minInt, [], lit "a"⟩ = none :=
  ⟨by decide, ExtError_panics_at_smallest (fun _ => true) ⟨lit "m", 1, minInt, [], lit "a"⟩
    (by decide) rfl⟩

end Toml
